import Mathlib

/-!
A verification development for the `jade-source-gen` code generator
(`src/index.js`): it turns a Jade/Pug abstract syntax tree back into
Jade source text.

Shallow embedding conventions:
* JavaScript strings are modelled as `List Char`.
* JavaScript numbers that hold source line counters are modelled as `Int`
  (the compiler itself starts its indent counter at `-1`).
* The external constant-folding oracle (`constantinople.toConstant`) is a
  parameter of the embedding: a function `List Char → Option JSVal`,
  `none` modelling a thrown exception ("not a constant").
* Thrown exceptions are modelled with `Except Err`.
* The visitor methods mutate `this` (`buf`, `indents`, `nested`); the
  embedding threads an explicit `CState` record through every call.
* The visitor recursion is fuelled: every visit function consumes one
  unit of fuel per call edge, and returns `Err.fuelExhausted` when fuel
  runs out.  The fuel is a termination device only; the entry point
  `generateCode` supplies more fuel than any call chain can consume.
-/

namespace JadeGen

/-- Convert a string literal to the `List Char` representation used
throughout the embedding. -/
def str (s : String) : List Char := s.data

/-- A constant value produced by the constant-folding oracle
(`constantinople.toConstant` in the source, an external collaborator).
The source only ever inspects such a value for truthiness, for being the
boolean `true`, and coerced to a string inside a regular-expression test
or a string concatenation, so strings, booleans and integers suffice for
the model. -/
inductive JSVal where
  | vstr (s : List Char)
  | vbool (b : Bool)
  | vnum (n : Int)
deriving DecidableEq, Repr

/-- JavaScript truthiness of a `JSVal`. -/
def JSVal.truthy : JSVal → Bool
  | .vstr s => s ≠ []
  | .vbool b => b
  | .vnum n => n ≠ 0

/-- JavaScript string coercion of a `JSVal` (as used by `'.' + constVal`,
`'#' + id` and `regex.test(constVal)` in the source). -/
def JSVal.toStr : JSVal → List Char
  | .vstr s => s
  | .vbool true => str "true"
  | .vbool false => str "false"
  | .vnum n => str n.repr

/-- One entry of a tag's or mixin's `attrs` array: `{name, val, escaped}`. -/
structure Attr where
  name : List Char
  val : List Char
  escaped : Bool
deriving DecidableEq, Repr

/-- The Jade AST (§3 of the spec).  Fields are exactly those the source
reads.  `unknown` stands for a node whose `type` string has no
`visit<Type>` handler on the compiler (it also carries the `filename`
field that the dispatcher's error message reads). -/
inductive Node where
  | block (yld : Bool) (nodes : List Node) (line : Int)
  | namedBlock (name : List Char) (mode : List Char) (yld : Bool) (nodes : List Node) (line : Int)
  | caseNode (expr : List Char) (blk : Node) (line : Int)
  | whenNode (expr : List Char) (blk : Option Node) (line : Int)
  | doctype (val : List Char) (line : Int)
  | mixin (name : List Char) (args : List Char) (call : Bool) (attrs : List Attr)
      (attributeBlocks : List (List Char)) (blk : Option Node) (line : Int)
  | mixinBlock (line : Int)
  | tag (name : List Char) (attrs : List Attr) (attributeBlocks : List (List Char))
      (selfClosing : Bool) (buffer : Bool) (code : Option Node) (blk : Node) (line : Int)
  | text (val : List Char) (isHtml : Bool) (line : Int)
  | comment (val : List Char) (buffer : Bool) (line : Int)
  | blockComment (val : List Char) (buffer : Bool) (blk : Node) (line : Int)
  | code (val : List Char) (buffer : Bool) (escape : Bool) (blk : Option Node) (line : Int)
  | conditional (test : List Char) (consequent : Node) (alternate : Option Node) (line : Int)
  | whileNode (test : List Char) (blk : Node) (line : Int)
  | each (val : List Char) (key : List Char) (obj : List Char) (blk : Node)
      (alternative : Option Node) (line : Int)
  | extendsNode (file : Node) (line : Int)
  | fileReference (path : List Char) (line : Int)
  | includeNode (file : Node) (filt : List Char) (attrs : List Attr) (blk : Node) (line : Int)
  | filter (name : List Char) (attrs : List Attr) (blk : Node) (line : Int)
  | unknown (type' : List Char) (filename : Option (List Char)) (line : Int)

/-- The `line` property of a node. -/
def Node.line : Node → Int
  | .block _ _ l => l
  | .namedBlock _ _ _ _ l => l
  | .caseNode _ _ l => l
  | .whenNode _ _ l => l
  | .doctype _ l => l
  | .mixin _ _ _ _ _ _ l => l
  | .mixinBlock l => l
  | .tag _ _ _ _ _ _ _ l => l
  | .text _ _ l => l
  | .comment _ _ l => l
  | .blockComment _ _ _ l => l
  | .code _ _ _ _ l => l
  | .conditional _ _ _ l => l
  | .whileNode _ _ l => l
  | .each _ _ _ _ _ l => l
  | .extendsNode _ l => l
  | .fileReference _ l => l
  | .includeNode _ _ _ _ l => l
  | .filter _ _ _ l => l
  | .unknown _ _ l => l

/-- The `type` property of a node (the JavaScript discriminant string). -/
def Node.typeStr : Node → List Char
  | .block .. => str "Block"
  | .namedBlock .. => str "NamedBlock"
  | .caseNode .. => str "Case"
  | .whenNode .. => str "When"
  | .doctype .. => str "Doctype"
  | .mixin .. => str "Mixin"
  | .mixinBlock .. => str "MixinBlock"
  | .tag .. => str "Tag"
  | .text .. => str "Text"
  | .comment .. => str "Comment"
  | .blockComment .. => str "BlockComment"
  | .code .. => str "Code"
  | .conditional .. => str "Conditional"
  | .whileNode .. => str "While"
  | .each .. => str "Each"
  | .extendsNode .. => str "Extends"
  | .fileReference .. => str "FileReference"
  | .includeNode .. => str "Include"
  | .filter .. => str "Filter"
  | .unknown t _ _ => t

/-- `node.nodes` for `Block`/`NamedBlock` nodes (the only nodes carrying a
`nodes` array; on every other node the property is `undefined`). -/
def Node.nodesOf : Node → List Node
  | .block _ ns _ => ns
  | .namedBlock _ _ _ ns _ => ns
  | _ => []

/-- `node.yield` truthiness (`undefined`, hence false, outside
`Block`/`NamedBlock`). -/
def Node.yieldOf : Node → Bool
  | .block y _ _ => y
  | .namedBlock _ _ y _ _ => y
  | _ => false

/-! ## The AST normalizer (`cleanUpAST`, src/index.js lines 543-558)

`cleanUpAST` walks the whole tree (via the external `jade-walk`
collaborator) and, at every `Block` node, replaces each child that is
itself a non-`yield` `Block` by that child's recursively-cleaned
children, keeping every other child (recursively cleaned) in place.

Modelled from the spec: the traversal order of the external `walk`
utility is not part of this repository; §4.1 specifies its net effect
("it recurses into every `Block` found anywhere in the tree, not only at
the top"), so the embedding recurses into every child-bearing field of
every node.  The callback's in-place splice of `node.nodes`
(`newNodes.concat(cleanUpAST(innerNode).nodes)`) is `cleanNodes` below,
with the `cleanOne` helper of the source's `forEach` body inlined into
the list recursion so the definition is structural. -/
mutual

def cleanUpAST : Node → Node
  | .block y ns l => .block y (cleanNodes ns) l
  | .namedBlock nm md y ns l => .namedBlock nm md y (cleanNodes ns) l
  | .caseNode e b l => .caseNode e (cleanUpAST b) l
  | .whenNode e b l => .whenNode e (cleanUpASTOpt b) l
  | .doctype v l => .doctype v l
  | .mixin nm a c at' ab b l => .mixin nm a c at' ab (cleanUpASTOpt b) l
  | .mixinBlock l => .mixinBlock l
  | .tag nm at' ab sc bf cd b l => .tag nm at' ab sc bf (cleanUpASTOpt cd) (cleanUpAST b) l
  | .text v h l => .text v h l
  | .comment v b l => .comment v b l
  | .blockComment v bf b l => .blockComment v bf (cleanUpAST b) l
  | .code v bf es b l => .code v bf es (cleanUpASTOpt b) l
  | .conditional t c a l => .conditional t (cleanUpAST c) (cleanUpASTOpt a) l
  | .whileNode t b l => .whileNode t (cleanUpAST b) l
  | .each v k o b a l => .each v k o (cleanUpAST b) (cleanUpASTOpt a) l
  | .extendsNode f l => .extendsNode (cleanUpAST f) l
  | .fileReference p l => .fileReference p l
  | .includeNode f ft at' b l => .includeNode (cleanUpAST f) ft at' (cleanUpAST b) l
  | .filter nm at' b l => .filter nm at' (cleanUpAST b) l
  | .unknown t f l => .unknown t f l

def cleanUpASTOpt : Option Node → Option Node
  | none => none
  | some n => some (cleanUpAST n)

/-- The rewrite of one `Block`'s `nodes` array: a child of type `Block`
with a falsy `yield` is replaced by its cleaned children
(`cleanUpAST(innerNode).nodes`), every other child is kept (cleaned by
the surrounding walk). -/
def cleanNodes : List Node → List Node
  | [] => []
  | .block false ms _ :: ns => cleanNodes ms ++ cleanNodes ns
  | n :: ns => cleanUpAST n :: cleanNodes ns

end

/-- `cleanNodes` distributes over list concatenation. -/
theorem cleanNodes_append (as bs : List Node) :
    cleanNodes (as ++ bs) = cleanNodes as ++ cleanNodes bs := by
  induction as with
  | nil => simp [cleanNodes]
  | cons n rest ih =>
    cases n with
    | block y ms l => cases y <;> simp [cleanNodes, ih]
    | _ => simp [cleanNodes, ih]

mutual

theorem cleanUpAST_cleanUpAST (n : Node) : cleanUpAST (cleanUpAST n) = cleanUpAST n := by
  cases n with
  | block y ns l => simp [cleanUpAST, cleanNodes_cleanNodes ns]
  | namedBlock nm md y ns l => simp [cleanUpAST, cleanNodes_cleanNodes ns]
  | caseNode e b l => simp [cleanUpAST, cleanUpAST_cleanUpAST b]
  | whenNode e b l => simp [cleanUpAST, cleanUpASTOpt_idem b]
  | mixin nm a c at' ab b l => simp [cleanUpAST, cleanUpASTOpt_idem b]
  | tag nm at' ab sc bf cd b l =>
    simp [cleanUpAST, cleanUpASTOpt_idem cd, cleanUpAST_cleanUpAST b]
  | blockComment v bf b l => simp [cleanUpAST, cleanUpAST_cleanUpAST b]
  | code v bf es b l => simp [cleanUpAST, cleanUpASTOpt_idem b]
  | conditional t c a l => simp [cleanUpAST, cleanUpAST_cleanUpAST c, cleanUpASTOpt_idem a]
  | whileNode t b l => simp [cleanUpAST, cleanUpAST_cleanUpAST b]
  | each v k o b a l => simp [cleanUpAST, cleanUpAST_cleanUpAST b, cleanUpASTOpt_idem a]
  | extendsNode f l => simp [cleanUpAST, cleanUpAST_cleanUpAST f]
  | includeNode f ft at' b l =>
    simp [cleanUpAST, cleanUpAST_cleanUpAST f, cleanUpAST_cleanUpAST b]
  | filter nm at' b l => simp [cleanUpAST, cleanUpAST_cleanUpAST b]
  | _ => simp [cleanUpAST]

theorem cleanUpASTOpt_idem (o : Option Node) :
    cleanUpASTOpt (cleanUpASTOpt o) = cleanUpASTOpt o := by
  cases o with
  | none => simp [cleanUpASTOpt]
  | some n => simp [cleanUpASTOpt, cleanUpAST_cleanUpAST n]

theorem cleanNodes_cleanNodes (ns : List Node) : cleanNodes (cleanNodes ns) = cleanNodes ns := by
  cases ns with
  | nil => simp [cleanNodes]
  | cons n rest =>
    cases n with
    | block y ms l =>
      cases y with
      | false =>
        rw [cleanNodes, cleanNodes_append, cleanNodes_cleanNodes ms, cleanNodes_cleanNodes rest]
      | true => simp [cleanNodes, cleanUpAST, cleanNodes_cleanNodes ms, cleanNodes_cleanNodes rest]
    | namedBlock nm md y ms l =>
      simp [cleanNodes, cleanUpAST, cleanNodes_cleanNodes ms, cleanNodes_cleanNodes rest]
    | caseNode e b l =>
      simp [cleanNodes, cleanUpAST, cleanUpAST_cleanUpAST b, cleanNodes_cleanNodes rest]
    | whenNode e b l =>
      simp [cleanNodes, cleanUpAST, cleanUpASTOpt_idem b, cleanNodes_cleanNodes rest]
    | mixin nm a c at' ab b l =>
      simp [cleanNodes, cleanUpAST, cleanUpASTOpt_idem b, cleanNodes_cleanNodes rest]
    | tag nm at' ab sc bf cd b l =>
      simp [cleanNodes, cleanUpAST, cleanUpASTOpt_idem cd, cleanUpAST_cleanUpAST b,
        cleanNodes_cleanNodes rest]
    | blockComment v bf b l =>
      simp [cleanNodes, cleanUpAST, cleanUpAST_cleanUpAST b, cleanNodes_cleanNodes rest]
    | code v bf es b l =>
      simp [cleanNodes, cleanUpAST, cleanUpASTOpt_idem b, cleanNodes_cleanNodes rest]
    | conditional t c a l =>
      simp [cleanNodes, cleanUpAST, cleanUpAST_cleanUpAST c, cleanUpASTOpt_idem a,
        cleanNodes_cleanNodes rest]
    | whileNode t b l =>
      simp [cleanNodes, cleanUpAST, cleanUpAST_cleanUpAST b, cleanNodes_cleanNodes rest]
    | each v k o b a l =>
      simp [cleanNodes, cleanUpAST, cleanUpAST_cleanUpAST b, cleanUpASTOpt_idem a,
        cleanNodes_cleanNodes rest]
    | extendsNode f l =>
      simp [cleanNodes, cleanUpAST, cleanUpAST_cleanUpAST f, cleanNodes_cleanNodes rest]
    | includeNode f ft at' b l =>
      simp [cleanNodes, cleanUpAST, cleanUpAST_cleanUpAST f, cleanUpAST_cleanUpAST b,
        cleanNodes_cleanNodes rest]
    | filter nm at' b l =>
      simp [cleanNodes, cleanUpAST, cleanUpAST_cleanUpAST b, cleanNodes_cleanNodes rest]
    | _ => simp [cleanNodes, cleanUpAST, cleanNodes_cleanNodes rest]

end

/-- C1: the normalization pass `cleanUpAST` is idempotent: applying it
twice to any input tree yields the same tree as applying it once. -/
theorem cleanUpAST_idempotent (t : Node) : cleanUpAST (cleanUpAST t) = cleanUpAST t :=
  cleanUpAST_cleanUpAST t

/-! ## Options and quoting (`Compiler.prototype.quote`, lines 54-78) -/

/-- `module.exports.defaultOptions` merged state (line 10-14): the two
options the embedding needs plus `preferredQuote` (a one-character
JavaScript string, compared with `=== "'"` in `quote`). -/
structure Options where
  indentChar : List Char
  useColon : Bool
  preferredQuote : List Char

/-- The default options of line 10-14. -/
def defaultOptions : Options :=
  { indentChar := str "  ", useColon := false, preferredQuote := str "'" }

/-- `name.replace(/'/g, "\\'")` / `name.replace(/"/g, '\\"')`: escape
every occurrence of the character `q` with a backslash. -/
def escapeQuoteChar (q : Char) (s : List Char) : List Char :=
  s.flatMap fun c => if c = q then ['\\', q] else [c]

/-- `Compiler.prototype.quote` (lines 54-78): wrap an attribute value in
quotation marks, preferring `options.preferredQuote`, switching to the
other quote when the value contains the preferred one and not the other,
and otherwise backslash-escaping the preferred quote inside the value.
`name.indexOf(c) !== -1` is `name.contains c`. -/
def quote (opts : Options) (name : List Char) : List Char :=
  if opts.preferredQuote = str "'" then
    if name.contains '\'' && !name.contains '"' then
      '"' :: name ++ ['"']
    else
      '\'' :: escapeQuoteChar '\'' name ++ ['\'']
  else
    if name.contains '"' && !name.contains '\'' then
      '\'' :: name ++ ['\'']
    else
      '"' :: escapeQuoteChar '"' name ++ ['"']

/-- The quote character that is not `q` (for `q` a quote character). -/
def otherQuote (q : Char) : Char := if q = '\'' then '"' else '\''

/-- C2: for a preferred quote character `q` (one of `'` and `"`), `quote`
wraps the value in the non-preferred quote, unescaped, exactly when the
value contains `q` and not the other quote; in every other case it wraps
the value in `q` with every occurrence of `q` backslash-escaped. -/
theorem quote_spec (opts : Options) (q : Char) (v : List Char)
    (hq : q = '\'' ∨ q = '"') (hpref : opts.preferredQuote = [q]) :
    quote opts v =
      if v.contains q && !v.contains (otherQuote q) then
        otherQuote q :: v ++ [otherQuote q]
      else
        q :: escapeQuoteChar q v ++ [q] := by
  rcases hq with h | h <;> subst h <;>
    simp [quote, hpref, str, otherQuote]

/-- Witness for C2 at concrete inputs: with the default preferred quote
`'`, the value `it's` (containing only `'`) is wrapped in double quotes
unescaped. -/
theorem quote_spec_witness :
    (defaultOptions.preferredQuote = ['\''] ∧ ('\'' = '\'' ∨ '\'' = '"')) ∧
      quote defaultOptions (str "it's") =
        if (str "it's").contains '\'' && !(str "it's").contains (otherQuote '\'') then
          otherQuote '\'' :: str "it's" ++ [otherQuote '\'']
        else
          '\'' :: escapeQuoteChar '\'' (str "it's") ++ ['\''] :=
  ⟨⟨by decide, Or.inl rfl⟩,
    quote_spec defaultOptions '\'' (str "it's") (Or.inl rfl) (by decide)⟩

/-! ## The attribute serializer (`Compiler.prototype.attrs`, lines 80-126)

The regular expressions of the source are decidable character-class
predicates here:
* `/^\-?[_a-z][_a-z0-9\-]*$/i` (class shorthand) — `classRegexTest`;
* `/^[\w-]+$/` (id shorthand) — `idRegexTest`;
* `/^\w[^()[\]=!,`'"\s]*$/` (bare attribute name) — `attrNameBare`.
-/

/-- ASCII letter (the `[a-z]` class under the `i` flag). -/
def isAlphaChar (c : Char) : Bool :=
  ('a' ≤ c && c ≤ 'z') || ('A' ≤ c && c ≤ 'Z')

/-- ASCII digit. -/
def isDigitChar (c : Char) : Bool := '0' ≤ c && c ≤ '9'

/-- JavaScript regex `\w`: `[A-Za-z0-9_]`. -/
def isWordChar (c : Char) : Bool := isAlphaChar c || isDigitChar c || c = '_'

/-- JavaScript regex `\s`: whitespace, including the Unicode space
characters JavaScript's `\s` matches. -/
def isJsSpace (c : Char) : Bool :=
  [' ', '\t', '\n', '\r', Char.ofNat 11, Char.ofNat 12, Char.ofNat 0xa0,
    Char.ofNat 0x1680, Char.ofNat 0x2028, Char.ofNat 0x2029, Char.ofNat 0x202f,
    Char.ofNat 0x205f, Char.ofNat 0x3000, Char.ofNat 0xfeff].contains c
  || (0x2000 ≤ c.toNat && c.toNat ≤ 0x200a)

/-- The part of the class-shorthand regex after the optional dash:
`[_a-z][_a-z0-9\-]*` anchored, case-insensitively. -/
def classBodyTest : List Char → Bool
  | [] => false
  | c :: rest =>
    (c = '_' || isAlphaChar c) &&
      rest.all fun d => d = '_' || isAlphaChar d || isDigitChar d || d = '-'

/-- `/^\-?[_a-z][_a-z0-9\-]*$/i.test s`. -/
def classRegexTest : List Char → Bool
  | '-' :: rest => classBodyTest rest
  | s => classBodyTest s

/-- `/^[\w-]+$/.test s`. -/
def idRegexTest (s : List Char) : Bool :=
  s ≠ [] && s.all fun c => isWordChar c || c = '-'

/-- `/^\w[^()[\]=!,`'"\s]*$/.test s` (the attribute-name test on line
100; the excluded set is parentheses, square brackets, `=`, `!`, comma,
backtick, both quotes, and whitespace). -/
def attrNameBare : List Char → Bool
  | [] => false
  | c :: rest =>
    isWordChar c && rest.all fun d =>
      !(['(', ')', '[', ']', '=', '!', ',', Char.ofNat 96, '\'', '"'].contains d)
        && !isJsSpace d

/-- `attr.name.replace(/\\/g, '\\\\')` (line 103). -/
def escBackslashes (s : List Char) : List Char :=
  s.flatMap fun c => if c = '\\' then ['\\', '\\'] else [c]

/-- The constant-folding oracle (`constantinople.toConstant`), an
external collaborator of the compiler; `none` models a thrown
exception. -/
abbrev Oracle := List Char → Option JSVal

/-- One compile's fixed context: the merged options plus the external
constant-folding oracle. -/
structure Env where
  opts : Options
  toConstant : Oracle

/-- Truthiness of the `constVal` local of `attrs` (initialized to the
falsy `''` and left there when `toConstant` throws). -/
def constTruthy : Option JSVal → Bool
  | none => false
  | some v => v.truthy

/-- String coercion of `constVal` (only ever used after a truthiness
test, so the `none` case is arbitrary). -/
def constToStr : Option JSVal → List Char
  | none => []
  | some v => v.toStr

/-- `typeof constVal === 'boolean' && constVal === true` (line 107). -/
def isBoolTrue : Option JSVal → Bool
  | some (.vbool true) => true
  | _ => false

/-- The else-branch of the `attrs` loop (lines 96-117): render one
non-shorthand attribute as `name`/quoted-name, then `!`/`=`/value unless
the constant-folded value is the boolean `true`. -/
def renderRegularAttr (env : Env) (a : Attr) : List Char :=
  let constVal := env.toConstant a.val
  let nameOut :=
    if attrNameBare a.name then a.name else quote env.opts (escBackslashes a.name)
  nameOut ++
    if isBoolTrue constVal then []
    else (if !a.escaped then ['!'] else []) ++ '=' :: a.val

/-- The class-shorthand test of line 90-91: `attr.name === 'class' &&
!attr.escaped && constVal && /^\-?[_a-z][_a-z0-9\-]*$/i.test(constVal)`. -/
def isClassShorthand (env : Env) (a : Attr) : Bool :=
  a.name = str "class" && !a.escaped && constTruthy (env.toConstant a.val)
    && classRegexTest (constToStr (env.toConstant a.val))

/-- The id-shorthand test of line 93-94 without its `!id` first-match
guard: `attr.name === 'id' && !attr.escaped && constVal &&
/^[\w-]+$/.test(constVal)`. -/
def isIdCandidate (env : Env) (a : Attr) : Bool :=
  a.name = str "id" && !a.escaped && constTruthy (env.toConstant a.val)
    && idRegexTest (constToStr (env.toConstant a.val))

/-- One iteration of the `attrs.forEach` loop (lines 84-118), threading
the accumulator `(regularAttrs, classes, id)`.  The two guards are the
named predicates above; the id guard additionally carries the source's
`!id` first-match test. -/
def attrsStep (env : Env) (st : List (List Char) × List Char × Option JSVal)
    (a : Attr) : List (List Char) × List Char × Option JSVal :=
  let (regularAttrs, classes, id) := st
  if isClassShorthand env a then
    (regularAttrs, classes ++ '.' :: constToStr (env.toConstant a.val), id)
  else if !constTruthy id && isIdCandidate env a then
    (regularAttrs, classes, env.toConstant a.val)
  else
    (regularAttrs ++ [renderRegularAttr env a], classes, id)

/-- `Compiler.prototype.attrs` (lines 80-126): the loop above followed by
the assembly of lines 120-125 (`#id`, then the accumulated `.class`
string, then the space-joined parenthesized list when non-empty). -/
def attrs (env : Env) (as : List Attr) : List Char :=
  let st := as.foldl (attrsStep env) ([], [], none)
  let (regularAttrs, classes, id) := st
  (if constTruthy id then '#' :: constToStr id else []) ++ classes ++
    if regularAttrs ≠ [] then '(' :: List.intercalate [' '] regularAttrs ++ [')'] else []

/-- `Compiler.prototype.attributeBlocks` (lines 128-132). -/
def attributeBlocks (abs : List (List Char)) : List Char :=
  abs.foldl (fun prev cur => prev ++ str "&attributes(" ++ cur ++ str ")") []

/-- The `.class` shorthand text contributed by a list of attributes, in
input order. -/
def classConcat (env : Env) (as : List Attr) : List Char :=
  as.flatMap fun a =>
    if isClassShorthand env a then '.' :: constToStr (env.toConstant a.val) else []

theorem classConcat_eq (env : Env) (as : List Attr) :
    classConcat env as =
      (as.filter (isClassShorthand env)).flatMap
        (fun a => '.' :: constToStr (env.toConstant a.val)) := by
  induction as with
  | nil => simp [classConcat]
  | cons a rest ih =>
    by_cases h : isClassShorthand env a <;>
      simp [classConcat, List.filter_cons, h, ← ih]

/-- Running the `attrs` loop from a state whose `id` slot already holds a
truthy value: every attribute that is not a class shorthand is rendered
into the regular list (the `!id` guard blocks further id shorthands) and
the `id` slot is unchanged. -/
theorem attrsFoldl_truthyId (env : Env) (as : List Attr) :
    ∀ regs classes (idv : Option JSVal), constTruthy idv = true →
      as.foldl (attrsStep env) (regs, classes, idv) =
        (regs ++ (as.filter fun a => !isClassShorthand env a).map (renderRegularAttr env),
          classes ++ classConcat env as, idv) := by
  induction as with
  | nil => intro regs classes idv _; simp [classConcat]
  | cons a rest ih =>
    intro regs classes idv hid
    by_cases hcls : isClassShorthand env a
    · simp [attrsStep, hcls, List.filter_cons, classConcat, ih _ _ _ hid]
    · simp [attrsStep, hcls, hid, List.filter_cons, classConcat, ih _ _ _ hid]

/-- Running the `attrs` loop from an unset `id` slot over attributes
containing no id candidate. -/
theorem attrsFoldl_noId (env : Env) (as : List Attr) :
    ∀ regs classes, (∀ b ∈ as, isIdCandidate env b = false) →
      as.foldl (attrsStep env) (regs, classes, none) =
        (regs ++ (as.filter fun a => !isClassShorthand env a).map (renderRegularAttr env),
          classes ++ classConcat env as, none) := by
  induction as with
  | nil => intro regs classes _; simp [classConcat]
  | cons a rest ih =>
    intro regs classes hno
    have hrest : ∀ b ∈ rest, isIdCandidate env b = false := fun b hb =>
      hno b (List.mem_cons_of_mem a hb)
    have ha : isIdCandidate env a = false := hno a (List.mem_cons_self a rest)
    by_cases hcls : isClassShorthand env a
    · simp [attrsStep, hcls, List.filter_cons, classConcat, ih _ _ hrest]
    · simp [attrsStep, hcls, ha, List.filter_cons, classConcat, ih _ _ hrest]

/-- C3: for an attribute list containing exactly one shorthand-qualifying
`id` attribute and exactly one shorthand-qualifying `class` attribute,
`attrs` emits the `#id` shorthand first, then the `.class` shorthand,
then the parenthesized remaining attributes (present only when at least
one remains), regardless of where the two shorthand attributes sit in
the input list; the remaining attributes keep their input order. -/
theorem attrs_order (env : Env) (as : List Attr) (aid acl : Attr)
    (hid : as.filter (isIdCandidate env) = [aid])
    (hcl : as.filter (isClassShorthand env) = [acl]) :
    attrs env as =
      '#' :: constToStr (env.toConstant aid.val)
        ++ '.' :: constToStr (env.toConstant acl.val)
        ++ (if ((as.filter fun a => !isClassShorthand env a && !isIdCandidate env a).map
                (renderRegularAttr env)) ≠ [] then
              '(' :: List.intercalate [' ']
                ((as.filter fun a => !isClassShorthand env a && !isIdCandidate env a).map
                  (renderRegularAttr env)) ++ [')']
            else []) := by
  obtain ⟨xs, ys, hsplit, hxs, haid, hys'⟩ := List.filter_eq_cons_iff.mp hid
  have hys : ∀ b ∈ ys, ¬ isIdCandidate env b = true := by
    intro b hb
    exact List.filter_eq_nil_iff.mp hys' b hb
  have hxs' : ∀ b ∈ xs, isIdCandidate env b = false := fun b hb =>
    Bool.not_eq_true _ ▸ eq_false_of_ne_true (hxs b hb)
  have hys'' : ∀ b ∈ ys, isIdCandidate env b = false := fun b hb =>
    eq_false_of_ne_true (hys b hb)
  -- the id candidate is not a class shorthand (its name is `id`)
  have haid_name : aid.name = str "id" := by
    have h1 := haid
    unfold isIdCandidate at h1
    simp only [Bool.and_eq_true, decide_eq_true_eq] at h1
    exact h1.1.1.1
  have haid_notclass : isClassShorthand env aid = false := by
    unfold isClassShorthand
    simp [haid_name, str]
  -- truthiness of the stored id value
  have haid_truthy : constTruthy (env.toConstant aid.val) = true := by
    have h1 := haid
    unfold isIdCandidate at h1
    simp only [Bool.and_eq_true] at h1
    exact h1.1.2
  subst hsplit
  -- evaluate the fold: prefix without id candidates, the id step, suffix
  have hstep : attrsStep env
      (xs.filter (fun a => !isClassShorthand env a) |>.map (renderRegularAttr env),
        classConcat env xs, none) aid =
      ((xs.filter (fun a => !isClassShorthand env a)).map (renderRegularAttr env),
        classConcat env xs, env.toConstant aid.val) := by
    simp [attrsStep, haid_notclass, haid, constTruthy]
  have hfold : (xs ++ aid :: ys).foldl (attrsStep env) ([], [], none) =
      ((xs.filter (fun a => !isClassShorthand env a)).map (renderRegularAttr env)
          ++ (ys.filter (fun a => !isClassShorthand env a)).map (renderRegularAttr env),
        classConcat env xs ++ classConcat env ys, env.toConstant aid.val) := by
    rw [List.foldl_append, attrsFoldl_noId env xs _ _ hxs']
    simp only [List.nil_append, List.foldl_cons]
    rw [hstep, attrsFoldl_truthyId env ys _ _ _ haid_truthy]
  -- the class parts of prefix and suffix assemble to the unique `.class`
  have hclassparts : classConcat env xs ++ classConcat env ys =
      '.' :: constToStr (env.toConstant acl.val) := by
    have h1 : (xs.filter (isClassShorthand env)) ++ (ys.filter (isClassShorthand env))
        = [acl] := by
      have := hcl
      rw [List.filter_append, List.filter_cons] at this
      simpa [haid_notclass] using this
    rw [classConcat_eq, classConcat_eq, ← List.flatMap_append, h1]
    simp
  -- the regular parts are the order-preserving filter of the input
  have hregparts :
      (xs.filter (fun a => !isClassShorthand env a)).map (renderRegularAttr env)
          ++ (ys.filter (fun a => !isClassShorthand env a)).map (renderRegularAttr env) =
      ((xs ++ aid :: ys).filter
          (fun a => !isClassShorthand env a && !isIdCandidate env a)).map
        (renderRegularAttr env) := by
    have hx : xs.filter (fun a => !isClassShorthand env a && !isIdCandidate env a)
        = xs.filter (fun a => !isClassShorthand env a) :=
      List.filter_congr fun b hb => by simp [hxs' b hb]
    have hy : ys.filter (fun a => !isClassShorthand env a && !isIdCandidate env a)
        = ys.filter (fun a => !isClassShorthand env a) :=
      List.filter_congr fun b hb => by simp [hys'' b hb]
    rw [List.filter_append, List.filter_cons, hx, hy]
    simp [haid, ← List.map_append]
  rw [attrs, hfold]
  simp only [constTruthy] at haid_truthy ⊢
  rw [hclassparts, ← hregparts]
  simp [haid_truthy, List.map_append]

/-- A concrete environment for exercising `attrs`: the oracle folds the
two quoted string literals the example uses and fails on everything
else (as `constantinople` does on the non-constant `x`). -/
def envC3 : Env :=
  { opts := defaultOptions,
    toConstant := fun s =>
      if s = str "'box'" then some (.vstr (str "box"))
      else if s = str "'big'" then some (.vstr (str "big"))
      else none }

def aidC3 : Attr := ⟨str "id", str "'box'", false⟩

def aclC3 : Attr := ⟨str "class", str "'big'", false⟩

def ahrefC3 : Attr := ⟨str "href", str "x", true⟩

/-- The example attribute list, deliberately ordered class first, then a
regular attribute, then the id. -/
def attrsC3ex : List Attr := [aclC3, ahrefC3, aidC3]

example : attrs envC3 attrsC3ex = str "#box.big(href=x)" := by decide

/-- Witness for C3: on the concrete scrambled attribute list the
hypotheses hold and `attrs` puts `#box` first, `.big` second and the
regular attribute inside the parentheses. -/
theorem attrs_order_witness :
    (attrsC3ex.filter (isIdCandidate envC3) = [aidC3]
        ∧ attrsC3ex.filter (isClassShorthand envC3) = [aclC3])
      ∧ attrs envC3 attrsC3ex =
        '#' :: constToStr (envC3.toConstant aidC3.val)
          ++ '.' :: constToStr (envC3.toConstant aclC3.val)
          ++ (if ((attrsC3ex.filter fun a =>
                  !isClassShorthand envC3 a && !isIdCandidate envC3 a).map
                  (renderRegularAttr envC3)) ≠ [] then
                '(' :: List.intercalate [' ']
                  ((attrsC3ex.filter fun a =>
                      !isClassShorthand envC3 a && !isIdCandidate envC3 a).map
                    (renderRegularAttr envC3)) ++ [')']
              else []) :=
  ⟨⟨by decide, by decide⟩, attrs_order envC3 attrsC3ex aidC3 aclC3 (by decide) (by decide)⟩

/-! ## The dot-block heuristic (`Compiler.prototype.useDot`, lines 150-186) -/

mutual

/-- Number of matches of the global regex `/\w+(\s+|$)/g` in a string
(the word count of line 171): a match is a maximal run of `\w`
characters whose following character is whitespace or the end of the
string (no position inside a run followed by any other character can
start a match, so such runs are skipped whole). -/
def wordCount : List Char → Nat
  | [] => 0
  | c :: cs => if isWordChar c then wordRun cs else wordCount cs

/-- Scanning state of `wordCount`: inside a `\w` run. -/
def wordRun : List Char → Nat
  | [] => 1
  | c :: cs =>
    if isWordChar c then wordRun cs
    else if isJsSpace c then 1 + wordCount cs else wordCount cs

end

/-- `prev.type === 'Text' && prev.val === '\n'` (lines 173 and 182). -/
def isTextNewline : Node → Bool
  | .text v _ _ => decide (v = ['\n'])
  | _ => false

/-- The `prev` data for the first loop iteration:
`block.nodes[i-1] || parent || {line: -1}` at `i = 0`. -/
def parentInfo : Option Node → Int × Bool
  | some p => (p.line, isTextNewline p)
  | none => (-1, false)

/-- The `for` loop of lines 165-183, threading `prev`'s line,
`prev.type === 'Text' && prev.val === '\n'`, `prevStartLine`, `words`
and `codesWithOwnLine`; `none` models the early `return false` on a
child that is neither `Text` nor a buffered block-less `Code`. -/
def useDotLoop : List Node → Int → Bool → Bool → Nat → Nat → Option (Nat × Nat)
  | [], _, _, _, words, codes => some (words, codes)
  | n :: rest, prevLine, prevTextNL, prevStartLine, words, codes =>
    let startLine := decide (n.line > prevLine) || prevTextNL
    match n with
    | .text v _ l =>
      useDotLoop rest l (decide (v = ['\n'])) startLine (words + wordCount v) codes
    | .code _ bf _ blkOpt l =>
      if bf && blkOpt.isNone then
        useDotLoop rest l false startLine words
          (codes + if startLine && prevStartLine then 1 else 0)
      else none
    | _ => none

/-- `codesWithOwnLine / lines < 0.35` (line 185) under JavaScript number
semantics: for a positive line span the comparison is the exact rational
`20 * codes < 7 * lines` (`7/20` and the literal `0.35` round to the
same IEEE double, and for the line spans a source file can have the
rounded quotient sits on the same side of it as the exact quotient); a
zero span gives `NaN` or `Infinity`, which are not `< 0.35`; a negative
span gives a quotient `≤ -0`, which is. -/
def jsLtPoint35 (codes : Nat) (lines : Int) : Bool :=
  if 0 < lines then decide (20 * (codes : Int) < 7 * lines)
  else if lines = 0 then false
  else true

/-- `block.nodes[block.nodes.length - 1].line` given the head and tail
of the nodes array. -/
def lastLineOf : Node → List Node → Int
  | n, [] => n.line
  | _, m :: ms => lastLineOf m ms

/-- `Compiler.prototype.useDot` (lines 150-186). -/
def useDot (block : Node) (parent : Option Node) : Bool :=
  match block.nodesOf with
  | [] => false
  | n0 :: rest =>
    let lines : Int := lastLineOf n0 rest - n0.line + 1
    if lines = 1 then false
    else
      match useDotLoop (n0 :: rest) (parentInfo parent).1 (parentInfo parent).2 false 0 0 with
      | none => false
      | some (words, codes) => decide (0 < words) && jsLtPoint35 codes lines

/-- A `Text` node (of any content). -/
def isDotText : Node → Bool
  | .text .. => true
  | _ => false

/-- A buffered `Code` node without a block
(`node.type === 'Code' && node.buffer && !node.block`, line 172). -/
def isDotCode : Node → Bool
  | .code _ bf _ blk _ => bf && blk.isNone
  | _ => false

/-- A child the dot heuristic tolerates: `Text`, or buffered block-less
`Code`. -/
def dotCompatible (n : Node) : Bool := isDotText n || isDotCode n

/-- The word contribution of one child. -/
def textWordsOf : Node → Nat
  | .text v _ _ => wordCount v
  | _ => 0

/-- Total word count of a block's children. -/
def specWords (ns : List Node) : Nat := (ns.map textWordsOf).sum

/-- Compositional count of the `Code` children on their own lines: a
qualifying `Code` child counts when it starts a new line relative to its
predecessor and the predecessor itself started a new line. -/
def ownLineCodes : Int × Bool → Bool → List Node → Nat
  | _, _, [] => 0
  | prev, prevStart, n :: rest =>
    let st := decide (n.line > prev.1) || prev.2
    (if isDotCode n && st && prevStart then 1 else 0)
      + ownLineCodes (n.line, isTextNewline n) st rest

/-- The scanning loop of `useDot` computes the compositional word and
own-line-code counts, and fails exactly when some child is not
dot-compatible. -/
theorem useDotLoop_eq (ns : List Node) :
    ∀ (pl : Int) (ptnl prevStart : Bool) (words codes : Nat),
      useDotLoop ns pl ptnl prevStart words codes =
        if ns.all dotCompatible then
          some (words + specWords ns, codes + ownLineCodes (pl, ptnl) prevStart ns)
        else none := by
  induction ns with
  | nil => intro pl ptnl prevStart words codes; simp [useDotLoop, specWords, ownLineCodes]
  | cons n rest ih =>
    intro pl ptnl prevStart words codes
    cases n with
    | text v h l =>
      have hd : dotCompatible (Node.text v h l) = true := rfl
      simp only [useDotLoop, Node.line]
      rw [ih l (decide (v = ['\n']))]
      by_cases hall : rest.all dotCompatible = true
      · simp [List.all_cons, hd, hall, specWords, ownLineCodes, isDotCode, isTextNewline,
          textWordsOf, Node.line, Nat.add_assoc]
      · simp [List.all_cons, hd, hall]
    | code v bf es blk l =>
      by_cases hb : (bf && blk.isNone) = true
      · have hd : dotCompatible (Node.code v bf es blk l) = true := by
          simp [dotCompatible, isDotCode, hb]
        simp only [useDotLoop, Node.line, hb, if_true]
        rw [ih l false]
        by_cases hall : rest.all dotCompatible = true
        · simp [List.all_cons, hd, hall, specWords, ownLineCodes, isDotCode, isTextNewline,
            textWordsOf, Node.line, hb, Nat.add_assoc]
        · simp [List.all_cons, hd, hall]
      · have hd : dotCompatible (Node.code v bf es blk l) = false := by
          have hx : (bf && blk.isNone) = false := Bool.eq_false_iff.mpr hb
          simp [dotCompatible, isDotText, isDotCode, hx]
        simp [useDotLoop, hb, List.all_cons, hd]
    | _ => simp [useDotLoop, dotCompatible, isDotText, isDotCode]

/-- The 20-line block of the 0.35 boundary: 10 words of text on line 1,
seven own-line buffered `Code` children on lines 2-8, and an empty
`Text` child on line 20 stretching the span to 20 lines. -/
def nsRatio35 : List Node :=
  Node.text (str "a b c d e f g h i j\n") false 1 ::
    (((List.range 7).map fun i => Node.code (str "x") true false none ((2 : Int) + i))
      ++ [Node.text [] false 20])

def blockRatio35 : Node := .block false nsRatio35 1

/-- The 50-line block of ratio 0.34: 10 words of text on line 1,
seventeen own-line buffered `Code` children on lines 2-18, and an empty
`Text` child on line 50. -/
def nsRatio34 : List Node :=
  Node.text (str "a b c d e f g h i j\n") false 1 ::
    (((List.range 17).map fun i => Node.code (str "x") true false none ((2 : Int) + i))
      ++ [Node.text [] false 50])

def blockRatio34 : Node := .block false nsRatio34 1

/-- C6: `useDot` returns false on an empty block and on a block spanning
exactly one source line; it returns false when some child is neither
`Text` nor buffered block-less `Code`; otherwise it returns true exactly
when the word count is positive and the own-line-code count over the
line span is below `0.35` in the JavaScript comparison; at the boundary,
7 own-line codes over 20 lines (ratio exactly 0.35) with word count 10
are rejected while ratio 0.34 is accepted. -/
theorem useDot_spec :
    (∀ (block : Node) (parent : Option Node), block.nodesOf = [] →
      useDot block parent = false)
    ∧ (∀ (block : Node) (parent : Option Node) n0 rest, block.nodesOf = n0 :: rest →
        lastLineOf n0 rest - n0.line + 1 = 1 → useDot block parent = false)
    ∧ (∀ (block : Node) (parent : Option Node) n0 rest, block.nodesOf = n0 :: rest →
        (n0 :: rest).all dotCompatible = false → useDot block parent = false)
    ∧ (∀ (block : Node) (parent : Option Node) n0 rest, block.nodesOf = n0 :: rest →
        lastLineOf n0 rest - n0.line + 1 ≠ 1 → (n0 :: rest).all dotCompatible = true →
        (useDot block parent = true ↔
          0 < specWords (n0 :: rest) ∧
            jsLtPoint35 (ownLineCodes (parentInfo parent) false (n0 :: rest))
              (lastLineOf n0 rest - n0.line + 1) = true))
    ∧ (specWords nsRatio35 = 10 ∧ ownLineCodes (parentInfo none) false nsRatio35 = 7
        ∧ lastLineOf (Node.text (str "a b c d e f g h i j\n") false 1) nsRatio35.tail = 20
        ∧ jsLtPoint35 7 20 = false ∧ useDot blockRatio35 none = false)
    ∧ (jsLtPoint35 17 50 = true ∧ useDot blockRatio34 none = true) := by
  refine ⟨?_, ?_, ?_, ?_, ?_, ?_⟩
  · intro block parent h
    simp [useDot, h]
  · intro block parent n0 rest h hl
    simp [useDot, h, hl]
  · intro block parent n0 rest h hall
    by_cases hl : lastLineOf n0 rest - n0.line + 1 = 1 <;>
      simp [useDot, h, hl, useDotLoop_eq _ (parentInfo parent).1 (parentInfo parent).2, hall]
  · intro block parent n0 rest h hl hall
    simp [useDot, h, hl, useDotLoop_eq _ (parentInfo parent).1 (parentInfo parent).2, hall]
  · refine ⟨by decide, by decide, by decide, by decide, by decide⟩
  · exact ⟨by decide, by decide⟩

/-- Witness for C6: the empty block clause of `useDot_spec` applied at a
concrete block. -/
theorem useDot_spec_witness : useDot (Node.block false [] 3) none = false :=
  useDot_spec.1 (Node.block false [] 3) none rfl

/-! ## Compiler state, buffer and errors (lines 20-52, §7)

Thrown JavaScript exceptions are the constructors of `Err`.  The two
`JSON.stringify`-bearing messages carry the offending node itself
instead of its serialization. -/

inductive Err where
  /-- Artifact of the fuelled embedding, never reached with enough fuel. -/
  | fuelExhausted
  /-- The `TypeError` of lines 222-233 (no `visit<type>` handler). -/
  | unsupportedNodeType (msg : List Char)
  /-- Reading `.length` of an `undefined` `nodes` property. -/
  | jsTypeError (msg : List Char)
  /-- Line 506: `Error('filter with more than one non-text nodes: ' + JSON.stringify(filter))`. -/
  | invalidFilterChain (filt : Node)
  /-- Line 383: `Error('HTML text and inline')`. -/
  | htmlAndInline
  /-- Line 204: `Error('unexpected node: ' + JSON.stringify(node))`. -/
  | unexpectedPipelessChild (n : Node)
  /-- Line 587: `Error('there is no block in this node')`. -/
  | noBlockInNode

/-- The mutable compile-owned state of the `Compiler` object: the output
lines, the indent depth, the `nested` flag, and `this.node`, the
normalized tree installed by the constructor (the constructor also sets
an `inline` property that no method ever reads). -/
structure CState where
  buf : List (List Char)
  indents : Int
  nested : Bool
  node : Node

/-- `repeat(str, num)` (the `repeat-string` collaborator): `num`
repetitions, the empty string when `num ≤ 0`. -/
def repeatString (s : List Char) (num : Int) : List Char :=
  (List.replicate num.toNat s).flatten

/-- `Compiler.prototype.indent` (lines 41-43): `add` is the optional
argument (`undefined` meaning `0`). -/
def indentOf (opts : Options) (s : CState) (add : Option Int) : List Char :=
  repeatString opts.indentChar (s.indents + add.getD 0)

/-- Append to the last element of a list of lines. -/
def appendLast (content : List Char) : List (List Char) → List (List Char)
  | [] => []
  | [l] => [l ++ content]
  | l :: ls => l :: appendLast content ls

/-- `Compiler.prototype.buffer` (lines 45-47): append to the current
line.  On an empty buffer the JavaScript writes to array index `-1`,
which `join` never reads, so it is a no-op for the produced output. -/
def buffer (content : List Char) (s : CState) : CState :=
  { s with buf := appendLast content s.buf }

/-- `Compiler.prototype.bufLine` (lines 49-52): start a new line at the
current indent (plus the optional extra indent). -/
def bufLine (opts : Options) (content : List Char) (idt : Option Int) (s : CState) : CState :=
  { s with buf := s.buf ++ [indentOf opts s idt ++ content] }

/-- `getBlock` (lines 560-589): the nodes with a block-like child; node
kinds outside the switch's returning cases throw. -/
def getBlock : Node → Except Err (Option Node)
  | .block y ns l => .ok (some (.block y ns l))
  | .namedBlock nm md y ns l => .ok (some (.namedBlock nm md y ns l))
  | .blockComment _ _ b _ => .ok (some b)
  | .caseNode _ b _ => .ok (some b)
  | .code _ _ _ b _ => .ok b
  | .each _ _ _ b _ _ => .ok (some b)
  | .filter _ _ b _ => .ok (some b)
  | .mixin _ _ _ _ _ b _ => .ok b
  | .tag _ _ _ _ _ _ b _ => .ok (some b)
  | .whenNode _ b _ => .ok b
  | .whileNode _ b _ => .ok (some b)
  | .conditional _ c _ _ => .ok (some c)
  | _ => .error .noBlockInNode

/-- Reading `node.nodes` where the source goes on to take `.length` or
iterate: on a node without the property JavaScript throws a
`TypeError`. -/
def getNodes : Node → Except Err (List Node)
  | .block _ ns _ => .ok ns
  | .namedBlock _ _ _ ns _ => .ok ns
  | _ => .error (.jsTypeError (str "Cannot read property of undefined"))

/-- The `.block` property of a node (for `parent.block === block` in
`useColon`). -/
def Node.blockField : Node → Option Node
  | .caseNode _ b _ => some b
  | .whenNode _ b _ => b
  | .mixin _ _ _ _ _ b _ => b
  | .tag _ _ _ _ _ _ b _ => some b
  | .blockComment _ _ b _ => some b
  | .code _ _ _ b _ => b
  | .whileNode _ b _ => some b
  | .each _ _ _ b _ _ => some b
  | .includeNode _ _ _ b _ => some b
  | .filter _ _ b _ => some b
  | _ => none

mutual

/-- Structural equality of nodes, modelling the reference identity test
`parent.block === block` of line 147: identical references are
structurally equal, and the compiler only ever compares a node against a
child slot of its parent, so the structural test decides the same
branch. -/
def Node.beq : Node → Node → Bool
  | .block y ns l, .block y' ns' l' => y == y' && Node.beqList ns ns' && l == l'
  | .namedBlock n m y ns l, .namedBlock n' m' y' ns' l' =>
    n == n' && m == m' && y == y' && Node.beqList ns ns' && l == l'
  | .caseNode e b l, .caseNode e' b' l' => e == e' && Node.beq b b' && l == l'
  | .whenNode e b l, .whenNode e' b' l' => e == e' && Node.beqOpt b b' && l == l'
  | .doctype v l, .doctype v' l' => v == v' && l == l'
  | .mixin n a c at' ab b l, .mixin n' a' c' at2 ab' b' l' =>
    n == n' && a == a' && c == c' && at' == at2 && ab == ab' && Node.beqOpt b b' && l == l'
  | .mixinBlock l, .mixinBlock l' => l == l'
  | .tag n at' ab sc bf cd b l, .tag n' at2 ab' sc' bf' cd' b' l' =>
    n == n' && at' == at2 && ab == ab' && sc == sc' && bf == bf'
      && Node.beqOpt cd cd' && Node.beq b b' && l == l'
  | .text v h l, .text v' h' l' => v == v' && h == h' && l == l'
  | .comment v b l, .comment v' b' l' => v == v' && b == b' && l == l'
  | .blockComment v bf b l, .blockComment v' bf' b' l' =>
    v == v' && bf == bf' && Node.beq b b' && l == l'
  | .code v bf es b l, .code v' bf' es' b' l' =>
    v == v' && bf == bf' && es == es' && Node.beqOpt b b' && l == l'
  | .conditional t c a l, .conditional t' c' a' l' =>
    t == t' && Node.beq c c' && Node.beqOpt a a' && l == l'
  | .whileNode t b l, .whileNode t' b' l' => t == t' && Node.beq b b' && l == l'
  | .each v k o b a l, .each v' k' o' b' a' l' =>
    v == v' && k == k' && o == o' && Node.beq b b' && Node.beqOpt a a' && l == l'
  | .extendsNode f l, .extendsNode f' l' => Node.beq f f' && l == l'
  | .fileReference p l, .fileReference p' l' => p == p' && l == l'
  | .includeNode f ft at' b l, .includeNode f' ft' at2 b' l' =>
    Node.beq f f' && ft == ft' && at' == at2 && Node.beq b b' && l == l'
  | .filter n at' b l, .filter n' at2 b' l' =>
    n == n' && at' == at2 && Node.beq b b' && l == l'
  | .unknown t f l, .unknown t' f' l' => t == t' && f == f' && l == l'
  | _, _ => false

def Node.beqList : List Node → List Node → Bool
  | [], [] => true
  | a :: as, b :: bs => Node.beq a b && Node.beqList as bs
  | _, _ => false

def Node.beqOpt : Option Node → Option Node → Bool
  | none, none => true
  | some a, some b => Node.beq a b
  | _, _ => false

end

/-- `Compiler.prototype.useColon` (lines 134-148). -/
def useColon (opts : Options) (block : Node) (parent : Option Node) : Bool :=
  if !opts.useColon then false
  else
    let parentOk :=
      match parent with
      | some p =>
        (match p with
          | .mixin _ _ c _ _ _ _ => c
          | .tag .. => true
          | .whenNode .. => true
          | _ => false)
      | none => false
    let blockOk :=
      match block.nodesOf with
      | [n] =>
        (match n with
          | .mixin _ _ c _ _ _ _ => c
          | .tag .. => true
          | _ => false)
      | _ => false
    let parentBlockIs :=
      match parent with
      | some p => Node.beqOpt p.blockField (some block)
      | none => false
    parentOk && parentBlockIs && blockOk

/-- `buf.replace(/\\?#([[{])/g, '\\#$1')` (line 190 and the inline
branch of `visitText`): normalize every `#[`/`#{`, escaped or not, to
its backslash-escaped form (leftmost, non-overlapping matches). -/
def escInterp1 : List Char → List Char
  | [] => []
  | '\\' :: '#' :: '[' :: r => '\\' :: '#' :: '[' :: escInterp1 r
  | '\\' :: '#' :: '{' :: r => '\\' :: '#' :: '{' :: escInterp1 r
  | '#' :: '[' :: r => '\\' :: '#' :: '[' :: escInterp1 r
  | '#' :: '{' :: r => '\\' :: '#' :: '{' :: escInterp1 r
  | c :: r => c :: escInterp1 r

/-- `text.val.replace(/#([[{])/g, '\\#$1')` (line 391). -/
def escInterp2 : List Char → List Char
  | [] => []
  | '#' :: '[' :: r => '\\' :: '#' :: '[' :: escInterp2 r
  | '#' :: '{' :: r => '\\' :: '#' :: '{' :: escInterp2 r
  | c :: r => c :: escInterp2 r

/-- `val.replace(/\n/g, '\n' + this.indent())` (line 189). -/
def replaceNewlines (ind : List Char) (s : List Char) : List Char :=
  s.flatMap fun c => if c = '\n' then '\n' :: ind else [c]

/-- `Compiler.prototype.visitPipelessText` (lines 188-192). -/
def visitPipelessText (opts : Options) (val : List Char) (noEscape : Bool)
    (s : CState) : CState :=
  let b := replaceNewlines (indentOf opts s none) val
  let b := if !noEscape then escInterp1 b else b
  buffer b s

/-- `Compiler.prototype.visitDoctype` (lines 302-308). -/
def visitDoctype (opts : Options) (val : List Char) (s : CState) : CState :=
  bufLine opts (str "doctype" ++ if val ≠ [] then ' ' :: val else []) none s

/-- `Compiler.prototype.visitMixinBlock` (lines 298-300). -/
def visitMixinBlock (opts : Options) (s : CState) : CState :=
  bufLine opts (str "block") none s

/-- `Compiler.prototype.visitText` (lines 381-393). -/
def visitText (opts : Options) (val : List Char) (isHtml : Bool) (inline : Bool)
    (s : CState) : Except Err CState :=
  if isHtml then
    if inline then .error .htmlAndInline
    else
      let s := bufLine opts [] none s
      .ok (visitPipelessText opts val false s)
  else if inline then .ok (buffer (escInterp1 val) s)
  else if val = ['\n'] then .ok (bufLine opts (str "| ") none s)
  else if val ≠ [] then .ok (bufLine opts ('|' :: ' ' :: escInterp2 val) none s)
  else .ok s

/-- `Compiler.prototype.visitComment` (lines 395-400). -/
def visitComment (opts : Options) (val : List Char) (cbuffer : Bool) (s : CState) : CState :=
  bufLine opts (str "//" ++ (if !cbuffer then ['-'] else []) ++ val) none s

/-- `Compiler.prototype.visitFileReference` (lines 482-484). -/
def visitFileReference (path : List Char) (s : CState) : CState :=
  buffer path s

/-- `node.filename || 'Jade'` plus the line number, as interpolated into
the dispatcher's error messages: `(filename:line)`. -/
def jsLocation (filename : Option (List Char)) (line : Int) : List Char :=
  '(' :: ((match filename with
            | some f => if f = [] then str "Jade" else f
            | none => str "Jade")
    ++ ':' :: str line.repr ++ [')'])

/-- The message of the unsupported-node `TypeError` (lines 222-233):
parent context (type only), then the node's own location, type, and the
library name. -/
def unsupportedNodeMsg (parent : Option Node) (t : List Char)
    (filename : Option (List Char)) (line : Int) : List Char :=
  (match parent with
    | some p => str "A child of " ++ p.typeStr
    | none => str "A top-level node")
    ++ ' ' :: jsLocation filename line
    ++ str " is of type " ++ t ++ str ", which is not supported by jade-source-gen."

/-- `node.type === 'Code'`. -/
def isCodeType : Node → Bool
  | .code .. => true
  | _ => false

/-- `node.type === 'Text'`. -/
def isTextType : Node → Bool
  | .text .. => true
  | _ => false

/-- `node.type === 'Filter'`. -/
def isFilterType : Node → Bool
  | .filter .. => true
  | _ => false

/-! ## The visitor (`Compiler.prototype.visit` and the `visit*` methods)

Every function consumes one unit of fuel per call, so the mutual
recursion is structural on the fuel; `Err.fuelExhausted` never occurs
when the fuel exceeds the length of the longest call chain (the entry
point `generateCode` supplies `4 * sizeOf node + 4`).  Each `visit*`
handler that the source gives access to `this`-level recursion receives
the node itself (for the `parent` arguments of its recursive calls)
together with the node's fields. -/
mutual

/-- `Compiler.prototype.visit` (lines 210-236): dispatch on `node.type`.
The `null`-node branch (lines 211-220) is unreachable here because the
embedding's child slots always hold nodes.  An `unknown` node stands for
every `type` string with no `visit<Type>` handler on the prototype. -/
def visit (env : Env) : Nat → Node → Option Node → Bool → CState → Except Err CState
  | 0, _, _, _, _ => .error .fuelExhausted
  | fuel + 1, node, parent, inline, s =>
    match node with
    | .block .. => visitBlock env fuel node inline parent s
    | .namedBlock nm md _ _ _ => visitNamedBlock env fuel node nm md s
    | .caseNode e b _ => visitCase env fuel node e b s
    | .whenNode e b _ => visitWhen env fuel node e b s
    | .doctype v _ => .ok (visitDoctype env.opts v s)
    | .mixin nm a c at' ab b l => visitMixin env fuel node nm a c at' ab b l inline s
    | .mixinBlock _ => .ok (visitMixinBlock env.opts s)
    | .tag nm at' ab sc bf cd b l => visitTag env fuel node nm at' ab sc bf cd b l inline s
    | .text v h _ => visitText env.opts v h inline s
    | .comment v b _ => .ok (visitComment env.opts v b s)
    | .blockComment v bf b _ => visitBlockComment env fuel v bf b s
    | .code v bf es b _ => visitCode env fuel node v bf es b inline parent s
    | .conditional t c a _ => visitConditional env fuel node t c a s
    | .whileNode t b _ => visitWhile env fuel node t b s
    | .each v k o b a _ => visitEach env fuel node v k o b a s
    | .extendsNode f _ => visitExtends env fuel f s
    | .fileReference p _ => .ok (visitFileReference p s)
    | .includeNode f ft at' b _ => visitInclude env fuel node f ft at' b s
    | .filter nm at' b l => visitFilter env fuel node nm at' b l inline parent s
    | .unknown t fn l => .error (.unsupportedNodeType (unsupportedNodeMsg parent t fn l))

/-- `Compiler.prototype.visitBlock` (lines 267-296).  It is only ever
called on `Block`/`NamedBlock` nodes (from the dispatcher and from
`visitNamedBlock`), for which `yieldOf`/`nodesOf` read the node's own
properties. -/
def visitBlock (env : Env) : Nat → Node → Bool → Option Node → CState → Except Err CState
  | 0, _, _, _, _ => .error .fuelExhausted
  | fuel + 1, block, inline, parent, s =>
    if block.yieldOf then .ok (bufLine env.opts (str "yield") none s)
    else if useDot block parent then
      let s :=
        match parent with
        | some (.tag ..) => buffer ['.'] s
        | some (.mixin ..) => buffer ['.'] s
        | _ => bufLine env.opts ['.'] none s
      visitPipelessTextBlock env fuel block false s
    else if useColon env.opts block parent then
      match block.nodesOf with
      | n0 :: _ => do
        let s := buffer (str ": ") s
        let originalNested := s.nested
        let s' ← visit env fuel n0 (some block) true { s with nested := true }
        .ok { s' with nested := originalNested }
      | [] => .ok s  -- unreachable: `useColon` demands exactly one child
    else do
      let s := { s with indents := s.indents + 1 }
      let s ← visitNodes env fuel block block.nodesOf true inline 0 s
      .ok { s with indents := s.indents - 1 }

/-- The `block.nodes.forEach` loop of lines 290-294: the first child
receives the block's own `inline` flag, later children are inline when
they share their predecessor's source line. -/
def visitNodes (env : Env) :
    Nat → Node → List Node → Bool → Bool → Int → CState → Except Err CState
  | 0, _, _, _, _, _, _ => .error .fuelExhausted
  | _ + 1, _, [], _, _, _, s => .ok s
  | fuel + 1, block, n :: rest, first, inline, prevLine, s => do
    let s' ← visit env fuel n (some block) (if first then inline else decide (prevLine = n.line)) s
    visitNodes env fuel block rest false inline n.line s'

/-- `Compiler.prototype.visitNamedBlock` (lines 258-265); it forwards to
`visitBlock` with no `inline`/`parent` arguments. -/
def visitNamedBlock (env : Env) : Nat → Node → List Char → List Char → CState → Except Err CState
  | 0, _, _, _, _ => .error .fuelExhausted
  | fuel + 1, self, nm, md, s =>
    let s :=
      if md = str "replace" then bufLine env.opts (str "block " ++ nm) none s
      else bufLine env.opts (md ++ ' ' :: nm) none s
    visitBlock env fuel self false none s

/-- `Compiler.prototype.visitCase` (lines 238-241). -/
def visitCase (env : Env) : Nat → Node → List Char → Node → CState → Except Err CState
  | 0, _, _, _, _ => .error .fuelExhausted
  | fuel + 1, self, expr, blk, s =>
    visit env fuel blk (some self) false (bufLine env.opts (str "case " ++ expr) none s)

/-- `Compiler.prototype.visitWhen` (lines 243-256). -/
def visitWhen (env : Env) : Nat → Node → List Char → Option Node → CState → Except Err CState
  | 0, _, _, _, _ => .error .fuelExhausted
  | fuel + 1, self, expr, blk, s =>
    let s :=
      if expr = str "default" then bufLine env.opts (str "default") none s
      else bufLine env.opts (str "when " ++ expr) none s
    match blk with
    | some b => do
      let bns ← getNodes b
      if bns.length = 0 then .ok (bufLine env.opts [] (some 1) s)
      else visit env fuel b (some self) false s
    | none => .ok s

/-- `Compiler.prototype.visitMixin` (lines 310-338).  Line 327 reads the
hoisted, still-`undefined` `nodeInline` and `nodes` variables, so it
never buffers anything and is omitted. -/
def visitMixin (env : Env) :
    Nat → Node → List Char → List Char → Bool → List Attr → List (List Char) →
      Option Node → Int → Bool → CState → Except Err CState
  | 0, _, _, _, _, _, _, _, _, _, _ => .error .fuelExhausted
  | fuel + 1, self, name, args, call, mattrs, mblocks, blk, line, inline, s =>
    let argsStr := if args ≠ [] then '(' :: args ++ [')'] else []
    if call then
      let b := '+' :: name ++ argsStr ++ attrs env mattrs ++ attributeBlocks mblocks
      let s :=
        if inline then
          let s := if !s.nested then buffer (str "#[") s else s
          let s := buffer b s
          if !s.nested then buffer (str "]") s else s
        else bufLine env.opts b none s
      match blk with
      | some bl => do
        let bns ← getNodes bl
        if bns.length ≠ 0 then
          match bns with
          | n0 :: _ =>
            let nodeInline := decide (n0.line = line) && !useColon env.opts bl (some self)
            let s := if nodeInline && (!isCodeType n0 || bns.length ≠ 1) then buffer [' '] s else s
            visit env fuel bl (some self) nodeInline s
          | [] => .ok s
        else .ok s
      | none => .ok s
    else
      let s := bufLine env.opts (str "mixin " ++ name ++ argsStr) none s
      match blk with
      | some bl => visit env fuel bl (some self) false s
      | none => .ok s

/-- `Compiler.prototype.visitTag` (lines 340-379). -/
def visitTag (env : Env) :
    Nat → Node → List Char → List Attr → List (List Char) → Bool → Bool →
      Option Node → Node → Int → Bool → CState → Except Err CState
  | 0, _, _, _, _, _, _, _, _, _, _, _ => .error .fuelExhausted
  | fuel + 1, self, name, tattrs, tblocks, selfClosing, tbuffer, code, blk, line, inline, s => do
    let attrsStr := attrs env tattrs ++ attributeBlocks tblocks
    let b :=
      if tbuffer then '#' :: '{' :: name ++ ['}']
      else if selfClosing || name ≠ str "div"
          || (match attrsStr with
              | c :: _ => c ≠ '.' && c ≠ '#'
              | [] => true) then name
      else []
    let b := b ++ (if selfClosing then ['/'] else [])
    let b := b ++ attrsStr
    let s :=
      if inline then
        let s := if !s.nested then buffer (str "#[") s else s
        buffer b s
      else bufLine env.opts b none s
    let s ←
      match code with
      | some c =>
        (match c with
          | .code v bf es cb _ => visitCode env fuel c v bf es cb true none s
          | _ =>
            -- a non-`Code` node in `tag.code` is outside the modelled
            -- input space (the parser only ever stores `Code` there)
            .error (.jsTypeError (str "tag.code is not a Code node")))
      | none => .ok s
    let bns ← getNodes blk
    let s ←
      if bns.length ≠ 0 then
        match bns with
        | n0 :: _ =>
          let nodeInline := decide (n0.line = line) && !useColon env.opts blk (some self)
          let s := if nodeInline && (!isCodeType n0 || bns.length ≠ 1) then buffer [' '] s else s
          visit env fuel blk (some self) nodeInline s
        | [] => .ok s
      else .ok s
    .ok (if inline && !s.nested then buffer (str "]") s else s)

/-- `Compiler.prototype.visitBlockComment` (lines 402-409). -/
def visitBlockComment (env : Env) : Nat → List Char → Bool → Node → CState → Except Err CState
  | 0, _, _, _, _ => .error .fuelExhausted
  | fuel + 1, val, cbuffer, blk, s =>
    let b := str "//" ++ (if !cbuffer then ['-'] else []) ++ (if val ≠ [] then val else [])
    let s := bufLine env.opts b none s
    visitPipelessTextBlock env fuel blk false s

/-- `Compiler.prototype.visitCode` (lines 411-443). -/
def visitCode (env : Env) :
    Nat → Node → List Char → Bool → Bool → Option Node → Bool → Option Node →
      CState → Except Err CState
  | 0, _, _, _, _, _, _, _, _ => .error .fuelExhausted
  | fuel + 1, self, val, cbuffer, escape, blkOpt, inline, parent, s => do
    let parentBlock : Option Node ←
      match parent with
      | none => .ok none
      | some p => getBlock p
    let inlineBranch : Bool ←
      if inline then
        match parentBlock with
        | some pb => do
          let pn ← getNodes pb
          .ok (decide (pn.length ≠ 1))
        | none => .ok false
      else .ok false
    if inlineBranch then
      if cbuffer then .ok (buffer ((if escape then '#' else '!') :: '{' :: val ++ ['}']) s)
      else .ok (buffer (str "#[- " ++ val ++ str "]") s)
    else
      let b := if cbuffer then (if !escape then ['!'] else []) ++ ['='] else ['-']
      let s := if inline then buffer b s else bufLine env.opts b none s
      let s :=
        if !val.contains '\n' then buffer (' ' :: val) s
        else
          let s := { s with indents := s.indents + 1 }
          let s := bufLine env.opts [] none s
          let s := visitPipelessText env.opts val false s
          { s with indents := s.indents - 1 }
      match blkOpt with
      | some b2 => visit env fuel b2 (some self) false s
      | none => .ok s

/-- `Compiler.prototype.visitConditional` (lines 445-460).  For a
`Conditional` alternate the source calls `this.visitConditional(
cond.alternate, true)`, whose second argument the method ignores. -/
def visitConditional (env : Env) :
    Nat → Node → List Char → Node → Option Node → CState → Except Err CState
  | 0, _, _, _, _, _ => .error .fuelExhausted
  | fuel + 1, self, test, consequent, alternate, s => do
    let s := bufLine env.opts (str "if " ++ test) none s
    let s ← visit env fuel consequent (some self) false s
    match alternate with
    | some alt =>
      (match alt with
        | .conditional t2 c2 a2 _ =>
          let s := bufLine env.opts (str "else ") none s
          visitConditional env fuel alt t2 c2 a2 s
        | _ =>
          let s := bufLine env.opts (str "else") none s
          visit env fuel alt (some self) false s)
    | none => .ok s

/-- `Compiler.prototype.visitWhile` (lines 462-466). -/
def visitWhile (env : Env) : Nat → Node → List Char → Node → CState → Except Err CState
  | 0, _, _, _, _ => .error .fuelExhausted
  | fuel + 1, self, test, blk, s =>
    visit env fuel blk (some self) false (bufLine env.opts (str "while " ++ test) none s)

/-- `Compiler.prototype.visitEach` (lines 468-475); the `alternative` is
visited with no parent argument. -/
def visitEach (env : Env) :
    Nat → Node → List Char → List Char → List Char → Node → Option Node →
      CState → Except Err CState
  | 0, _, _, _, _, _, _, _ => .error .fuelExhausted
  | fuel + 1, self, val, key, obj, blk, alternative, s => do
    let s := bufLine env.opts
      (str "each " ++ val ++ (if key ≠ [] then str ", " ++ key else []) ++ str " in " ++ obj)
      none s
    let s ← visit env fuel blk (some self) false s
    match alternative with
    | some alt => visit env fuel alt none false (bufLine env.opts (str "else") none s)
    | none => .ok s

/-- `Compiler.prototype.visitExtends` (lines 477-480); the file reference
is visited with no parent argument. -/
def visitExtends (env : Env) : Nat → Node → CState → Except Err CState
  | 0, _, _ => .error .fuelExhausted
  | fuel + 1, file, s =>
    visit env fuel file none false (bufLine env.opts (str "extends ") none s)

/-- `Compiler.prototype.visitInclude` (lines 486-494); both the file
reference and the trailing block are visited with no parent argument. -/
def visitInclude (env : Env) :
    Nat → Node → Node → List Char → List Attr → Node → CState → Except Err CState
  | 0, _, _, _, _, _, _ => .error .fuelExhausted
  | fuel + 1, _self, file, filt, iattrs, blk, s => do
    let s := bufLine env.opts (str "include") none s
    let s := if filt ≠ [] then buffer (':' :: filt ++ attrs env iattrs) s else s
    let s := buffer [' '] s
    let s ← visit env fuel file none false s
    visit env fuel blk none false s

/-- `Compiler.prototype.visitFilter` (lines 496-520). -/
def visitFilter (env : Env) :
    Nat → Node → List Char → List Attr → Node → Int → Bool → Option Node →
      CState → Except Err CState
  | 0, _, _, _, _, _, _, _, _ => .error .fuelExhausted
  | fuel + 1, self, name, fattrs, blk, _line, inline, parent, s => do
    let b := ':' :: name ++ attrs env fattrs
    let s := if inline then buffer (str "#[") s else s
    let s := if inline || s.nested then buffer b s else bufLine env.opts b none s
    let bns ← getNodes blk
    let s ←
      if bns.length ≠ 0 then
        match bns with
        | n0 :: _ =>
          if isFilterType n0 then
            if bns.length > 1 then .error (.invalidFilterChain self)
            else
              match n0 with
              | .filter nm2 at2 b2 l2 => do
                let originalNested := s.nested
                let s' ← visitFilter env fuel n0 nm2 at2 b2 l2 inline (some self)
                  { s with nested := true }
                .ok { s' with nested := originalNested }
              | _ => .ok s  -- unreachable: `isFilterType n0`
          else if inline then
            let s := if isTextType n0 then buffer [' '] s else s
            visit env fuel blk parent inline s
          else
            visitPipelessTextBlock env fuel blk true s
        | [] => .ok s
      else .ok s
    .ok (if inline && !s.nested then buffer (str "]") s else s)

/-- `Compiler.prototype.visitPipelessTextBlock` (lines 194-208): save the
indent, bump it (skipping depth `0`), emit an indent-only line, render
the children, restore the indent. -/
def visitPipelessTextBlock (env : Env) : Nat → Node → Bool → CState → Except Err CState
  | 0, _, _, _ => .error .fuelExhausted
  | fuel + 1, blk, noEscape, s => do
    let origIndents := s.indents
    let s := { s with indents := if s.indents + 1 = 0 then 1 else s.indents + 1 }
    let s := bufLine env.opts [] none s
    let bns ← getNodes blk
    let s ← visitPipelessNodes env fuel blk bns noEscape s
    .ok { s with indents := origIndents }

/-- The `block.nodes.forEach` loop of lines 198-206: `Text` children are
buffered as pipeless text, `Code` and `Tag` children are visited inline,
anything else throws. -/
def visitPipelessNodes (env : Env) :
    Nat → Node → List Node → Bool → CState → Except Err CState
  | 0, _, _, _, _ => .error .fuelExhausted
  | _ + 1, _, [], _, s => .ok s
  | fuel + 1, blk, n :: rest, noEscape, s =>
    match n with
    | .text v _ _ =>
      visitPipelessNodes env fuel blk rest noEscape (visitPipelessText env.opts v noEscape s)
    | .code .. => do
      let s' ← visit env fuel n (some blk) true s
      visitPipelessNodes env fuel blk rest noEscape s'
    | .tag .. => do
      let s' ← visit env fuel n (some blk) true s
      visitPipelessNodes env fuel blk rest noEscape s'
    | _ => .error (.unexpectedPipelessChild n)

end

mutual

/-- An executable size of a node, used only to pick a sufficient fuel. -/
def Node.size : Node → Nat
  | .block _ ns _ => 1 + Node.sizeList ns
  | .namedBlock _ _ _ ns _ => 1 + Node.sizeList ns
  | .caseNode _ b _ => 1 + Node.size b
  | .whenNode _ b _ => 1 + Node.sizeOpt b
  | .doctype _ _ => 1
  | .mixin _ _ _ _ _ b _ => 1 + Node.sizeOpt b
  | .mixinBlock _ => 1
  | .tag _ _ _ _ _ cd b _ => 1 + Node.sizeOpt cd + Node.size b
  | .text _ _ _ => 1
  | .comment _ _ _ => 1
  | .blockComment _ _ b _ => 1 + Node.size b
  | .code _ _ _ b _ => 1 + Node.sizeOpt b
  | .conditional _ c a _ => 1 + Node.size c + Node.sizeOpt a
  | .whileNode _ b _ => 1 + Node.size b
  | .each _ _ _ b a _ => 1 + Node.size b + Node.sizeOpt a
  | .extendsNode f _ => 1 + Node.size f
  | .fileReference _ _ => 1
  | .includeNode f _ _ b _ => 1 + Node.size f + Node.size b
  | .filter _ _ b _ => 1 + Node.size b
  | .unknown _ _ _ => 1

def Node.sizeList : List Node → Nat
  | [] => 0
  | n :: ns => 1 + Node.size n + Node.sizeList ns

def Node.sizeOpt : Option Node → Nat
  | none => 0
  | some n => 1 + Node.size n

end

/-- Enough fuel for every call chain of a compile of `n` (each call edge
consumes one unit and strictly descends the tree after at most two
edges). -/
def fuelFor (n : Node) : Nat := 4 * Node.size n + 4

/-- `generateCode`/`Compiler.prototype.compile` (lines 16-18, 35-39):
normalize (the constructor's `cleanUpAST`), set `indents` to `-1`,
visit the root with no parent, and join the lines with newlines.
`compileRun` exposes the final state. -/
def compileRun (env : Env) (ast : Node) : Except Err CState :=
  let node := cleanUpAST ast
  let s0 : CState := { buf := [], indents := -1, nested := false, node := node }
  visit env (fuelFor node) node none false s0

/-- The string `compile` returns: `this.buf.join('\n')`. -/
def generateCode (env : Env) (ast : Node) : Except Err (List Char) :=
  (compileRun env ast).map fun s => List.intercalate ['\n'] s.buf

/-! ## C4: the escaped-id scenario -/

/-- The oracle for the C4 scenario: `constantinople` folds the literal
`"box"` to the string `box`. -/
def envC4 : Env :=
  { opts := defaultOptions,
    toConstant := fun s => if s = str "\"box\"" then some (.vstr (str "box")) else none }

/-- The claimed input tree: `Tag{name:'div',
attrs:[{name:'id', val:'"box"', escaped:true}], block: [Text 'Hi']}`,
with every node on source line 1 (the claim gives no line numbers; a
parse of `div#box Hi` puts everything on one line). -/
def treeC4 : Node :=
  Node.tag (str "div") [⟨str "id", str "\"box\"", true⟩] [] false false none
    (Node.block false [Node.text (str "Hi") false 1] 1) 1

/-- The same tree with the id attribute unescaped (`escaped: false`). -/
def treeC4unescaped : Node :=
  Node.tag (str "div") [⟨str "id", str "\"box\"", false⟩] [] false false none
    (Node.block false [Node.text (str "Hi") false 1] 1) 1

/-- Counterexample to C4 as stated: the claimed tree carries
`escaped: true`, and the id-shorthand branch of `attrs` (line 93)
requires `!attr.escaped`, so the attribute is rendered in the
parenthesized list and the `div` name is kept — the compile yields
`div(id="box") Hi`, not `#box Hi`. -/
theorem c4_counterexample :
    generateCode envC4 treeC4 = .ok (str "div(id=\"box\") Hi")
      ∧ str "div(id=\"box\") Hi" ≠ str "#box Hi" :=
  ⟨rfl, by decide⟩

/-- C4 amended: with the id attribute unescaped (`escaped: false`) the
scenario compiles exactly to `#box Hi` (shorthand id, tag name `div`
omitted). -/
theorem c4_amended :
    generateCode envC4 treeC4unescaped = .ok (str "#box Hi") := rfl

/-! ## C5: the chained-conditional scenario -/

/-- An environment for trees without attributes: the oracle never folds
(it is never consulted). -/
def envC5 : Env := { opts := defaultOptions, toConstant := fun _ => none }

/-- `Conditional{test:'x', consequent: empty Block,
alternate: Conditional{test:'y', consequent: empty Block}}`. -/
def treeC5 : Node :=
  Node.conditional (str "x") (Node.block false [] 1)
    (some (Node.conditional (str "y") (Node.block false [] 2) none 2)) 1

/-- C5, what the code actually does: `visitConditional` pushes `else `
with `bufLine` and the recursive `visitConditional` for the chained
alternate starts with its own `bufLine('if y')`, so the compile yields
THREE lines — `if x`, `else ` and `if y` — not the two lines with
`else if y` that the spec describes (the trailing space of `'else '`
and the ignored `true` second argument of the recursive call show the
same-line continuation was intended). -/
theorem c5_code_behavior :
    generateCode envC5 treeC5 = .ok (str "if x\nelse \nif y")
      ∧ str "if x\nelse \nif y" ≠ str "if x\nelse if y" :=
  ⟨rfl, by decide⟩

/-! ## C7: dispatching a node without a handler -/

/-- C7 amended: visiting a node whose type has no handler raises the
`TypeError` of lines 222-233 without touching the state; its message
names the parent's type (`A child of <parent.type>`, or `A top-level
node`), then the NODE's own location (`filename || 'Jade'` and the
node's line), then the node's type. -/
theorem visit_unknown_spec (env : Env) (fuel : Nat) (parent : Option Node)
    (t : List Char) (fn : Option (List Char)) (l : Int) (inline : Bool) (s : CState) :
    visit env (fuel + 1) (.unknown t fn l) parent inline s =
      .error (.unsupportedNodeType (
        (match parent with
          | some p => str "A child of " ++ p.typeStr
          | none => str "A top-level node")
        ++ ' ' :: '(' :: ((match fn with
              | some f => if f = [] then str "Jade" else f
              | none => str "Jade")
            ++ ':' :: str l.repr ++ [')'])
        ++ str " is of type " ++ t ++ str ", which is not supported by jade-source-gen.")) := by
  simp [visit, unsupportedNodeMsg, jsLocation]

def envC7 : Env := { opts := defaultOptions, toConstant := fun _ => none }

def parentC7 : Node :=
  Node.tag (str "section") [] [] false false none (Node.block false [] 5) 5

def stateC7 : CState := ⟨[], -1, false, Node.block false [] 1⟩

set_option maxRecDepth 10000 in
/-- Counterexample to C7 as stated: with a parent `Tag` on line 5 and an
`Unknown` node on line 3, the message carries the NODE's location
`(Jade:3)` and only the parent's type — the parent's location `(Jade:5)`
appears nowhere in it. -/
theorem c7_counterexample :
    visit envC7 1 (.unknown (str "Unknown") none 3) (some parentC7) false stateC7 =
      .error (.unsupportedNodeType (str
        "A child of Tag (Jade:3) is of type Unknown, which is not supported by jade-source-gen."))
      ∧ ¬ List.IsInfix (str "(Jade:5)") (str
        "A child of Tag (Jade:3) is of type Unknown, which is not supported by jade-source-gen.") :=
  ⟨rfl, by decide⟩

/-! ## C8: the filter chain -/

def envC8 : Env := { opts := defaultOptions, toConstant := fun _ => none }

/-- `:outer` whose block holds exactly one nested `:inner` filter. -/
def treeC8chain : Node :=
  Node.filter (str "outer") []
    (Node.block false [Node.filter (str "inner") [] (Node.block false [] 1) 1] 1) 1

/-- `:outer` whose block holds a `Text` child first and a `Filter` child
second. -/
def treeC8nonfirst : Node :=
  Node.filter (str "outer") []
    (Node.block false
      [Node.text (str "hi") false 1,
        Node.filter (str "inner") [] (Node.block false [] 1) 1] 1) 1

/-- C8: (i) whenever a filter's block has a `Filter` first child and at
least one further child, `visitFilter` throws the invalid-filter-chain
error of line 506 (carrying the filter node whose block is malformed);
(ii) a sole `Filter` child chains onto the same output line as
`:outer:inner` with no error; (iii) a `Filter` child in a non-first
position makes the pipeless-text renderer throw its unexpected-node
error — never the invalid-filter-chain one. -/
theorem visitFilter_chain_spec :
    (∀ (env : Env) (fuel : Nat) (self : Node) (name : List Char) (fattrs : List Attr)
        (y : Bool) (f0 n1 : Node) (ns : List Node) (bl l : Int) (inline : Bool)
        (parent : Option Node) (s : CState), isFilterType f0 = true →
      visitFilter env (fuel + 1) self name fattrs (.block y (f0 :: n1 :: ns) bl) l
          inline parent s =
        .error (.invalidFilterChain self))
    ∧ generateCode envC8 treeC8chain = .ok (str ":outer:inner")
    ∧ generateCode envC8 treeC8nonfirst =
      .error (.unexpectedPipelessChild
        (Node.filter (str "inner") [] (Node.block false [] 1) 1)) := by
  refine ⟨?_, rfl, rfl⟩
  intro env fuel self name fattrs y f0 n1 ns bl l inline parent s hf0
  simp [visitFilter, getNodes, hf0, Bind.bind, Except.bind, List.length_cons,
    Nat.succ_ne_zero]

def stateC8 : CState := ⟨[], -1, false, Node.block false [] 1⟩

/-- Witness for C8 part (i) at a concrete malformed filter. -/
theorem visitFilter_chain_spec_witness :
    visitFilter envC8 1 treeC8chain (str "outer") []
        (Node.block false
          [Node.filter (str "inner") [] (Node.block false [] 1) 1,
            Node.text (str "x") false 1] 1) 1 false none stateC8 =
      .error (.invalidFilterChain treeC8chain) :=
  visitFilter_chain_spec.1 envC8 0 treeC8chain (str "outer") [] false
    (Node.filter (str "inner") [] (Node.block false [] 1) 1)
    (Node.text (str "x") false 1) [] 1 1 false none stateC8 (by decide)

/-! ## Preservation: every visit restores `indents` and never rewrites
the tree

`Pres s s'` collects the two frame facts the visitor maintains: the
indent depth is restored to its entry value, and `this.node` (the
normalized tree installed by the constructor) is untouched — the `visit*`
methods contain no assignment to any node field. -/

def Pres (s s' : CState) : Prop := s'.indents = s.indents ∧ s'.node = s.node

theorem pres_refl (s : CState) : Pres s s := ⟨rfl, rfl⟩

theorem pres_trans {s t u : CState} (h1 : Pres s t) (h2 : Pres t u) : Pres s u :=
  ⟨h2.1.trans h1.1, h2.2.trans h1.2⟩

theorem buffer_pres (c : List Char) (s : CState) : Pres s (buffer c s) := ⟨rfl, rfl⟩

theorem bufLine_pres (opts : Options) (c : List Char) (i : Option Int) (s : CState) :
    Pres s (bufLine opts c i s) := ⟨rfl, rfl⟩

theorem visitPipelessText_pres (opts : Options) (v : List Char) (ne : Bool) (s : CState) :
    Pres s (visitPipelessText opts v ne s) := ⟨rfl, rfl⟩

/-- A conditional trailing `buffer` append (the closing `]` of inline
forms) preserves the preserved components. -/
theorem pres_ite_buffer {s t : CState} (c : Prop) [Decidable c] (b : List Char)
    (h : Pres s t) : Pres s (if c then buffer b t else t) := by
  split
  · exact pres_trans h ⟨rfl, rfl⟩
  · exact h

/-- Inversion of a successful `Except` bind. -/
theorem bind_ok {α β : Type} {e : Except Err α} {f : α → Except Err β} {b : β}
    (h : (e >>= f) = .ok b) : ∃ a, e = .ok a ∧ f a = .ok b := by
  cases e with
  | error _ => simp [Bind.bind, Except.bind] at h
  | ok a => exact ⟨a, rfl, by simpa [Bind.bind, Except.bind] using h⟩

theorem visitText_pres (opts : Options) (val : List Char) (isHtml inline : Bool)
    (s s' : CState) (h : visitText opts val isHtml inline s = .ok s') : Pres s s' := by
  unfold visitText at h
  split at h
  · split at h
    · simp at h
    · simp only [Except.ok.injEq] at h; subst h; exact ⟨rfl, rfl⟩
  · split at h
    · simp only [Except.ok.injEq] at h; subst h; exact ⟨rfl, rfl⟩
    · split at h
      · simp only [Except.ok.injEq] at h; subst h; exact ⟨rfl, rfl⟩
      · split at h
        · simp only [Except.ok.injEq] at h; subst h; exact ⟨rfl, rfl⟩
        · simp only [Except.ok.injEq] at h; subst h; exact ⟨rfl, rfl⟩

set_option maxHeartbeats 2000000

mutual

theorem visit_pres (env : Env) (fuel : Nat) (node : Node) (parent : Option Node)
    (inline : Bool) (s s' : CState)
    (h : visit env fuel node parent inline s = .ok s') : Pres s s' := by
  cases fuel with
  | zero => simp [visit] at h
  | succ k =>
    cases node with
    | block y ns l =>
      simp only [visit] at h
      exact visitBlock_pres env k _ _ _ _ _ h
    | namedBlock nm md y ns l =>
      simp only [visit] at h
      exact visitNamedBlock_pres env k _ _ _ _ _ h
    | caseNode e b l =>
      simp only [visit] at h
      exact visitCase_pres env k _ _ _ _ _ h
    | whenNode e b l =>
      simp only [visit] at h
      exact visitWhen_pres env k _ _ _ _ _ h
    | doctype v l =>
      simp only [visit, Except.ok.injEq] at h
      subst h; exact ⟨rfl, rfl⟩
    | mixin nm a c at' ab b l =>
      simp only [visit] at h
      exact visitMixin_pres env k _ _ _ _ _ _ _ _ _ _ _ h
    | mixinBlock l =>
      simp only [visit, Except.ok.injEq] at h
      subst h; exact ⟨rfl, rfl⟩
    | tag nm at' ab sc bf cd b l =>
      simp only [visit] at h
      exact visitTag_pres env k _ _ _ _ _ _ _ _ _ _ _ _ h
    | text v hm l =>
      simp only [visit] at h
      exact visitText_pres env.opts v hm inline s s' h
    | comment v b l =>
      simp only [visit, Except.ok.injEq] at h
      subst h; exact ⟨rfl, rfl⟩
    | blockComment v bf b l =>
      simp only [visit] at h
      exact visitBlockComment_pres env k _ _ _ _ _ h
    | code v bf es b l =>
      simp only [visit] at h
      exact visitCode_pres env k _ _ _ _ _ _ _ _ _ h
    | conditional t c a l =>
      simp only [visit] at h
      exact visitConditional_pres env k _ _ _ _ _ _ h
    | whileNode t b l =>
      simp only [visit] at h
      exact visitWhile_pres env k _ _ _ _ _ h
    | each v ky o b a l =>
      simp only [visit] at h
      exact visitEach_pres env k _ _ _ _ _ _ _ _ h
    | extendsNode f l =>
      simp only [visit] at h
      exact visitExtends_pres env k _ _ _ h
    | fileReference p l =>
      simp only [visit, Except.ok.injEq] at h
      subst h; exact ⟨rfl, rfl⟩
    | includeNode f ft at' b l =>
      simp only [visit] at h
      exact visitInclude_pres env k _ _ _ _ _ _ _ h
    | filter nm at' b l =>
      simp only [visit] at h
      exact visitFilter_pres env k _ _ _ _ _ _ _ _ _ h
    | unknown t fn l => simp [visit] at h

theorem visitBlock_pres (env : Env) (fuel : Nat) (block : Node) (inline : Bool)
    (parent : Option Node) (s s' : CState)
    (h : visitBlock env fuel block inline parent s = .ok s') : Pres s s' := by
  cases fuel with
  | zero => simp [visitBlock] at h
  | succ k =>
    simp only [visitBlock] at h
    split at h
    · simp only [Except.ok.injEq] at h; subst h; exact ⟨rfl, rfl⟩
    · split at h
      · refine pres_trans ?_ (visitPipelessTextBlock_pres env k _ _ _ _ h)
        cases parent with
        | none => exact ⟨rfl, rfl⟩
        | some p => cases p <;> exact ⟨rfl, rfl⟩
      · split at h
        · split at h
          · obtain ⟨mid, h1, h2⟩ := bind_ok h
            simp only [Except.ok.injEq] at h2
            subst h2
            have hp := visit_pres env k _ _ _ _ _ h1
            exact ⟨hp.1, hp.2⟩
          · simp only [Except.ok.injEq] at h; subst h; exact ⟨rfl, rfl⟩
        · obtain ⟨mid, h1, h2⟩ := bind_ok h
          simp only [Except.ok.injEq] at h2
          subst h2
          have hp := visitNodes_pres env k _ _ _ _ _ _ _ h1
          refine ⟨?_, hp.2⟩
          have h1' := hp.1
          simp only [CState.indents] at h1' ⊢
          omega

theorem visitNodes_pres (env : Env) (fuel : Nat) (block : Node) (ns : List Node)
    (first inline : Bool) (prevLine : Int) (s s' : CState)
    (h : visitNodes env fuel block ns first inline prevLine s = .ok s') : Pres s s' := by
  cases fuel with
  | zero => simp [visitNodes] at h
  | succ k =>
    cases ns with
    | nil =>
      simp only [visitNodes, Except.ok.injEq] at h
      subst h; exact ⟨rfl, rfl⟩
    | cons n rest =>
      simp only [visitNodes] at h
      obtain ⟨mid, h1, h2⟩ := bind_ok h
      exact pres_trans (visit_pres env k _ _ _ _ _ h1) (visitNodes_pres env k _ _ _ _ _ _ _ h2)

theorem visitNamedBlock_pres (env : Env) (fuel : Nat) (self : Node)
    (nm md : List Char) (s s' : CState)
    (h : visitNamedBlock env fuel self nm md s = .ok s') : Pres s s' := by
  cases fuel with
  | zero => simp [visitNamedBlock] at h
  | succ k =>
    simp only [visitNamedBlock] at h
    refine pres_trans ?_ (visitBlock_pres env k _ _ _ _ _ h)
    repeat' first
    | exact ⟨rfl, rfl⟩
    | split

theorem visitCase_pres (env : Env) (fuel : Nat) (self : Node) (expr : List Char)
    (blk : Node) (s s' : CState)
    (h : visitCase env fuel self expr blk s = .ok s') : Pres s s' := by
  cases fuel with
  | zero => simp [visitCase] at h
  | succ k =>
    simp only [visitCase] at h
    exact pres_trans (bufLine_pres env.opts _ none s) (visit_pres env k _ _ _ _ _ h)

theorem visitWhen_pres (env : Env) (fuel : Nat) (self : Node) (expr : List Char)
    (blk : Option Node) (s s' : CState)
    (h : visitWhen env fuel self expr blk s = .ok s') : Pres s s' := by
  cases fuel with
  | zero => simp [visitWhen] at h
  | succ k =>
    simp only [visitWhen] at h
    split at h
    · obtain ⟨bns, h1, h2⟩ := bind_ok h
      split at h2
      · simp only [Except.ok.injEq] at h2
        subst h2
        repeat' first
        | exact ⟨rfl, rfl⟩
        | split
      · refine pres_trans ?_ (visit_pres env k _ _ _ _ _ h2)
        repeat' first
        | exact ⟨rfl, rfl⟩
        | split
    · simp only [Except.ok.injEq] at h
      subst h
      repeat' first
      | exact ⟨rfl, rfl⟩
      | split

theorem visitMixin_pres (env : Env) (fuel : Nat) (self : Node) (name args : List Char)
    (call : Bool) (mattrs : List Attr) (mblocks : List (List Char)) (blk : Option Node)
    (line : Int) (inline : Bool) (s s' : CState)
    (h : visitMixin env fuel self name args call mattrs mblocks blk line inline s = .ok s') :
    Pres s s' := by
  cases fuel with
  | zero => simp [visitMixin] at h
  | succ k =>
    simp only [visitMixin] at h
    split at h
    · -- mixin call
      split at h
      · -- blk = some bl
        obtain ⟨bns, h1, h2⟩ := bind_ok h
        split at h2
        · split at h2
          · refine pres_trans ?_ (visit_pres env k _ _ _ _ _ h2)
            repeat' first
            | exact ⟨rfl, rfl⟩
            | split
          · simp only [Except.ok.injEq] at h2
            subst h2
            repeat' first
            | exact ⟨rfl, rfl⟩
            | split
        · simp only [Except.ok.injEq] at h2
          subst h2
          repeat' first
          | exact ⟨rfl, rfl⟩
          | split
      · -- blk = none
        simp only [Except.ok.injEq] at h
        subst h
        repeat' first
        | exact ⟨rfl, rfl⟩
        | split
    · -- mixin declaration
      split at h
      · refine pres_trans ?_ (visit_pres env k _ _ _ _ _ h)
        exact ⟨rfl, rfl⟩
      · simp only [Except.ok.injEq] at h
        subst h
        exact ⟨rfl, rfl⟩

theorem visitTag_pres (env : Env) (fuel : Nat) (self : Node) (name : List Char)
    (tattrs : List Attr) (tblocks : List (List Char)) (selfClosing tbuffer : Bool)
    (code : Option Node) (blk : Node) (line : Int) (inline : Bool) (s s' : CState)
    (h : visitTag env fuel self name tattrs tblocks selfClosing tbuffer code blk line
        inline s = .ok s') : Pres s s' := by
  cases fuel with
  | zero => simp [visitTag] at h
  | succ k =>
    simp only [visitTag] at h
    split at h
    · -- code = some c
      rename_i c
      cases c with
      | code v2 bf2 es2 cb2 l2 =>
        obtain ⟨s2, hc, h⟩ := bind_ok h
        obtain ⟨bns, hg, h⟩ := bind_ok h
        have hps2 : Pres s s2 := by
          refine pres_trans ?_ (visitCode_pres env k _ _ _ _ _ _ _ _ _ hc)
          repeat' first
          | exact ⟨rfl, rfl⟩
          | split
        split at h
        · split at h
          · obtain ⟨s3, hv, h3⟩ := bind_ok h
            simp only [Except.ok.injEq] at h3
            subst h3
            have hps3 : Pres s2 s3 := by
              refine pres_trans ?_ (visit_pres env k _ _ _ _ _ hv)
              repeat' first
              | exact ⟨rfl, rfl⟩
              | split
            refine pres_trans (pres_trans hps2 hps3) ?_
            repeat' first
            | exact ⟨rfl, rfl⟩
            | split
          · obtain ⟨s3, hv, h3⟩ := bind_ok h
            simp only [Except.ok.injEq] at hv h3
            subst hv
            subst h3
            refine pres_trans hps2 ?_
            repeat' first
            | exact ⟨rfl, rfl⟩
            | split
        · obtain ⟨s3, hv, h3⟩ := bind_ok h
          simp only [Except.ok.injEq] at hv h3
          subst hv
          subst h3
          refine pres_trans hps2 ?_
          repeat' first
          | exact ⟨rfl, rfl⟩
          | split
      | _ =>
        obtain ⟨s2, hc, _⟩ := bind_ok h
        simp at hc
    · -- code = none
      obtain ⟨s2, hc, h⟩ := bind_ok h
      obtain ⟨bns, hg, h⟩ := bind_ok h
      simp only [Except.ok.injEq] at hc
      have hps2 : Pres s s2 := by
        subst hc
        repeat' first
        | exact ⟨rfl, rfl⟩
        | split
      split at h
      · split at h
        · obtain ⟨s3, hv, h3⟩ := bind_ok h
          simp only [Except.ok.injEq] at h3
          subst h3
          have hps3 : Pres s2 s3 := by
            refine pres_trans ?_ (visit_pres env k _ _ _ _ _ hv)
            repeat' first
            | exact ⟨rfl, rfl⟩
            | split
          refine pres_trans (pres_trans hps2 hps3) ?_
          repeat' first
          | exact ⟨rfl, rfl⟩
          | split
        · obtain ⟨s3, hv, h3⟩ := bind_ok h
          simp only [Except.ok.injEq] at hv h3
          subst hv
          subst h3
          refine pres_trans hps2 ?_
          repeat' first
          | exact ⟨rfl, rfl⟩
          | split
      · obtain ⟨s3, hv, h3⟩ := bind_ok h
        simp only [Except.ok.injEq] at hv h3
        subst hv
        subst h3
        refine pres_trans hps2 ?_
        repeat' first
        | exact ⟨rfl, rfl⟩
        | split

theorem visitBlockComment_pres (env : Env) (fuel : Nat) (val : List Char)
    (cbuffer : Bool) (blk : Node) (s s' : CState)
    (h : visitBlockComment env fuel val cbuffer blk s = .ok s') : Pres s s' := by
  cases fuel with
  | zero => simp [visitBlockComment] at h
  | succ k =>
    simp only [visitBlockComment] at h
    exact pres_trans (bufLine_pres env.opts _ none s)
      (visitPipelessTextBlock_pres env k _ _ _ _ h)

theorem visitCode_pres (env : Env) (fuel : Nat) (self : Node) (val : List Char)
    (cbuffer escape : Bool) (blkOpt : Option Node) (inline : Bool)
    (parent : Option Node) (s s' : CState)
    (h : visitCode env fuel self val cbuffer escape blkOpt inline parent s = .ok s') :
    Pres s s' := by
  cases fuel with
  | zero => simp [visitCode] at h
  | succ k =>
    simp only [visitCode] at h
    split at h
    -- the `parentBlock` match (lines 412), then the `inlineBranch`
    -- computation, then the shared emission tail
    all_goals obtain ⟨pb, hpb, h⟩ := bind_ok h
    case _ =>
      -- parent = none
      split at h
      · split at h
        · obtain ⟨pn, hn, h⟩ := bind_ok h
          obtain ⟨ib, hib, h⟩ := bind_ok h
          simp only [Except.ok.injEq] at hib
          subst hib
          split at h
          · split at h <;> (simp only [Except.ok.injEq] at h; subst h; exact ⟨rfl, rfl⟩)
          · split at h
            · refine pres_trans ?_ (visit_pres env k _ _ _ _ _ h)
              split
              · repeat' first
                | exact ⟨rfl, rfl⟩
                | split
              · split <;> (refine ⟨?_, ?_⟩ <;> simp [visitPipelessText, buffer, bufLine])
            · simp only [Except.ok.injEq] at h
              subst h
              split
              · repeat' first
                | exact ⟨rfl, rfl⟩
                | split
              · split <;> (refine ⟨?_, ?_⟩ <;> simp [visitPipelessText, buffer, bufLine])
        · obtain ⟨ib, hib, h⟩ := bind_ok h
          simp only [Except.ok.injEq] at hib
          subst hib
          split at h
          · split at h <;> (simp only [Except.ok.injEq] at h; subst h; exact ⟨rfl, rfl⟩)
          · split at h
            · refine pres_trans ?_ (visit_pres env k _ _ _ _ _ h)
              split
              · repeat' first
                | exact ⟨rfl, rfl⟩
                | split
              · split <;> (refine ⟨?_, ?_⟩ <;> simp [visitPipelessText, buffer, bufLine])
            · simp only [Except.ok.injEq] at h
              subst h
              split
              · repeat' first
                | exact ⟨rfl, rfl⟩
                | split
              · split <;> (refine ⟨?_, ?_⟩ <;> simp [visitPipelessText, buffer, bufLine])
      · obtain ⟨ib, hib, h⟩ := bind_ok h
        simp only [Except.ok.injEq] at hib
        subst hib
        split at h
        · split at h <;> (simp only [Except.ok.injEq] at h; subst h; exact ⟨rfl, rfl⟩)
        · split at h
          · refine pres_trans ?_ (visit_pres env k _ _ _ _ _ h)
            split
            · repeat' first
              | exact ⟨rfl, rfl⟩
              | split
            · split <;> (refine ⟨?_, ?_⟩ <;> simp [visitPipelessText, buffer, bufLine])
          · simp only [Except.ok.injEq] at h
            subst h
            split
            · repeat' first
              | exact ⟨rfl, rfl⟩
              | split
            · split <;> (refine ⟨?_, ?_⟩ <;> simp [visitPipelessText, buffer, bufLine])
    case _ =>
      -- parent = some p
      split at h
      · split at h
        · obtain ⟨pn, hn, h⟩ := bind_ok h
          obtain ⟨ib, hib, h⟩ := bind_ok h
          simp only [Except.ok.injEq] at hib
          subst hib
          split at h
          · split at h <;> (simp only [Except.ok.injEq] at h; subst h; exact ⟨rfl, rfl⟩)
          · split at h
            · refine pres_trans ?_ (visit_pres env k _ _ _ _ _ h)
              split
              · repeat' first
                | exact ⟨rfl, rfl⟩
                | split
              · split <;> (refine ⟨?_, ?_⟩ <;> simp [visitPipelessText, buffer, bufLine])
            · simp only [Except.ok.injEq] at h
              subst h
              split
              · repeat' first
                | exact ⟨rfl, rfl⟩
                | split
              · split <;> (refine ⟨?_, ?_⟩ <;> simp [visitPipelessText, buffer, bufLine])
        · obtain ⟨ib, hib, h⟩ := bind_ok h
          simp only [Except.ok.injEq] at hib
          subst hib
          split at h
          · split at h <;> (simp only [Except.ok.injEq] at h; subst h; exact ⟨rfl, rfl⟩)
          · split at h
            · refine pres_trans ?_ (visit_pres env k _ _ _ _ _ h)
              split
              · repeat' first
                | exact ⟨rfl, rfl⟩
                | split
              · split <;> (refine ⟨?_, ?_⟩ <;> simp [visitPipelessText, buffer, bufLine])
            · simp only [Except.ok.injEq] at h
              subst h
              split
              · repeat' first
                | exact ⟨rfl, rfl⟩
                | split
              · split <;> (refine ⟨?_, ?_⟩ <;> simp [visitPipelessText, buffer, bufLine])
      · obtain ⟨ib, hib, h⟩ := bind_ok h
        simp only [Except.ok.injEq] at hib
        subst hib
        split at h
        · split at h <;> (simp only [Except.ok.injEq] at h; subst h; exact ⟨rfl, rfl⟩)
        · split at h
          · refine pres_trans ?_ (visit_pres env k _ _ _ _ _ h)
            split
            · repeat' first
              | exact ⟨rfl, rfl⟩
              | split
            · split <;> (refine ⟨?_, ?_⟩ <;> simp [visitPipelessText, buffer, bufLine])
          · simp only [Except.ok.injEq] at h
            subst h
            split
            · repeat' first
              | exact ⟨rfl, rfl⟩
              | split
            · split <;> (refine ⟨?_, ?_⟩ <;> simp [visitPipelessText, buffer, bufLine])

theorem visitConditional_pres (env : Env) (fuel : Nat) (self : Node) (test : List Char)
    (consequent : Node) (alternate : Option Node) (s s' : CState)
    (h : visitConditional env fuel self test consequent alternate s = .ok s') :
    Pres s s' := by
  cases fuel with
  | zero => simp [visitConditional] at h
  | succ k =>
    simp only [visitConditional] at h
    obtain ⟨mid, h1, h2⟩ := bind_ok h
    have hp1 : Pres s mid :=
      pres_trans (bufLine_pres env.opts _ none s) (visit_pres env k _ _ _ _ _ h1)
    split at h2
    · -- alternate = some alt: split the inner match on the alternate
      split at h2
      · refine pres_trans hp1 (pres_trans ?_ (visitConditional_pres env k _ _ _ _ _ _ h2))
        exact ⟨rfl, rfl⟩
      · refine pres_trans hp1 (pres_trans ?_ (visit_pres env k _ _ _ _ _ h2))
        exact ⟨rfl, rfl⟩
    · -- alternate = none
      simp only [Except.ok.injEq] at h2
      subst h2
      exact hp1

theorem visitWhile_pres (env : Env) (fuel : Nat) (self : Node) (test : List Char)
    (blk : Node) (s s' : CState)
    (h : visitWhile env fuel self test blk s = .ok s') : Pres s s' := by
  cases fuel with
  | zero => simp [visitWhile] at h
  | succ k =>
    simp only [visitWhile] at h
    exact pres_trans (bufLine_pres env.opts _ none s) (visit_pres env k _ _ _ _ _ h)

theorem visitEach_pres (env : Env) (fuel : Nat) (self : Node) (val key obj : List Char)
    (blk : Node) (alternative : Option Node) (s s' : CState)
    (h : visitEach env fuel self val key obj blk alternative s = .ok s') : Pres s s' := by
  cases fuel with
  | zero => simp [visitEach] at h
  | succ k =>
    simp only [visitEach] at h
    obtain ⟨mid, h1, h2⟩ := bind_ok h
    have hp1 : Pres s mid :=
      pres_trans (bufLine_pres env.opts _ none s) (visit_pres env k _ _ _ _ _ h1)
    split at h2
    · refine pres_trans hp1 (pres_trans ?_ (visit_pres env k _ _ _ _ _ h2))
      exact ⟨rfl, rfl⟩
    · simp only [Except.ok.injEq] at h2
      subst h2
      exact hp1

theorem visitExtends_pres (env : Env) (fuel : Nat) (file : Node) (s s' : CState)
    (h : visitExtends env fuel file s = .ok s') : Pres s s' := by
  cases fuel with
  | zero => simp [visitExtends] at h
  | succ k =>
    simp only [visitExtends] at h
    exact pres_trans (bufLine_pres env.opts _ none s) (visit_pres env k _ _ _ _ _ h)

theorem visitInclude_pres (env : Env) (fuel : Nat) (self file : Node) (filt : List Char)
    (iattrs : List Attr) (blk : Node) (s s' : CState)
    (h : visitInclude env fuel self file filt iattrs blk s = .ok s') : Pres s s' := by
  cases fuel with
  | zero => simp [visitInclude] at h
  | succ k =>
    simp only [visitInclude] at h
    obtain ⟨mid, h1, h2⟩ := bind_ok h
    refine pres_trans (pres_trans ?_ (visit_pres env k _ _ _ _ _ h1))
      (visit_pres env k _ _ _ _ _ h2)
    repeat' first
    | exact ⟨rfl, rfl⟩
    | split

theorem visitFilter_pres (env : Env) (fuel : Nat) (self : Node) (name : List Char)
    (fattrs : List Attr) (blk : Node) (line : Int) (inline : Bool)
    (parent : Option Node) (s s' : CState)
    (h : visitFilter env fuel self name fattrs blk line inline parent s = .ok s') :
    Pres s s' := by
  cases fuel with
  | zero => simp [visitFilter] at h
  | succ k =>
    simp only [visitFilter] at h
    obtain ⟨bns, hg, h⟩ := bind_ok h
    split at h
    · -- bns.length ≠ 0
      split at h
      · -- bns = n0 :: tail
        split at h
        · -- first child is a Filter
          split at h
          · -- more than one child: the thrown error is not an `ok`
            obtain ⟨y, hy, _⟩ := bind_ok h
            simp at hy
          · split at h
            · -- the chained sole Filter child
              obtain ⟨mid, h1, h⟩ := bind_ok h
              obtain ⟨y, hy, h⟩ := bind_ok h
              simp only [Except.ok.injEq] at hy h
              subst hy
              subst h
              have hp := visitFilter_pres env k _ _ _ _ _ _ _ _ _ h1
              have hind : mid.indents = s.indents := by
                refine Eq.trans hp.1 ?_
                repeat' first
                | rfl
                | split
              have hnode : mid.node = s.node := by
                refine Eq.trans hp.2 ?_
                repeat' first
                | rfl
                | split
              exact pres_ite_buffer _ _ ⟨hind, hnode⟩
            · -- unreachable fallback arm
              obtain ⟨y, hy, h⟩ := bind_ok h
              simp only [Except.ok.injEq] at hy h
              subst hy
              subst h
              repeat' first
              | exact ⟨rfl, rfl⟩
              | split
        · split at h
          · -- inline: visit the block
            obtain ⟨mid, h1, h⟩ := bind_ok h
            simp only [Except.ok.injEq] at h
            subst h
            have hm : Pres s mid := by
              refine pres_trans ?_ (visit_pres env k _ _ _ _ _ h1)
              repeat' first
              | exact ⟨rfl, rfl⟩
              | split
            exact pres_ite_buffer _ _ hm
          · -- pipeless text block
            obtain ⟨mid, h1, h⟩ := bind_ok h
            simp only [Except.ok.injEq] at h
            subst h
            have hm : Pres s mid := by
              refine pres_trans ?_ (visitPipelessTextBlock_pres env k _ _ _ _ h1)
              repeat' first
              | exact ⟨rfl, rfl⟩
              | split
            exact pres_ite_buffer _ _ hm
      · -- bns = []
        obtain ⟨y, hy, h⟩ := bind_ok h
        simp only [Except.ok.injEq] at hy h
        subst hy
        subst h
        repeat' first
        | exact ⟨rfl, rfl⟩
        | split
    · -- empty block
      obtain ⟨y, hy, h⟩ := bind_ok h
      simp only [Except.ok.injEq] at hy h
      subst hy
      subst h
      repeat' first
      | exact ⟨rfl, rfl⟩
      | split

theorem visitPipelessTextBlock_pres (env : Env) (fuel : Nat) (blk : Node)
    (noEscape : Bool) (s s' : CState)
    (h : visitPipelessTextBlock env fuel blk noEscape s = .ok s') : Pres s s' := by
  cases fuel with
  | zero => simp [visitPipelessTextBlock] at h
  | succ k =>
    simp only [visitPipelessTextBlock] at h
    obtain ⟨bns, hg, h⟩ := bind_ok h
    obtain ⟨mid, h1, h2⟩ := bind_ok h
    simp only [Except.ok.injEq] at h2
    subst h2
    have hp := visitPipelessNodes_pres env k _ _ _ _ _ h1
    exact ⟨rfl, hp.2⟩

theorem visitPipelessNodes_pres (env : Env) (fuel : Nat) (blk : Node) (ns : List Node)
    (noEscape : Bool) (s s' : CState)
    (h : visitPipelessNodes env fuel blk ns noEscape s = .ok s') : Pres s s' := by
  cases fuel with
  | zero => simp [visitPipelessNodes] at h
  | succ k =>
    cases ns with
    | nil =>
      simp only [visitPipelessNodes, Except.ok.injEq] at h
      subst h; exact ⟨rfl, rfl⟩
    | cons n rest =>
      cases n with
      | text v hm l =>
        simp only [visitPipelessNodes] at h
        exact pres_trans (visitPipelessText_pres env.opts v noEscape s)
          (visitPipelessNodes_pres env k _ _ _ _ _ h)
      | code v bf es cb l =>
        simp only [visitPipelessNodes] at h
        obtain ⟨mid, h1, h2⟩ := bind_ok h
        exact pres_trans (visit_pres env k _ _ _ _ _ h1)
          (visitPipelessNodes_pres env k _ _ _ _ _ h2)
      | tag nm at' ab sc bf cd b l =>
        simp only [visitPipelessNodes] at h
        obtain ⟨mid, h1, h2⟩ := bind_ok h
        exact pres_trans (visit_pres env k _ _ _ _ _ h1)
          (visitPipelessNodes_pres env k _ _ _ _ _ h2)
      | _ => simp [visitPipelessNodes] at h

end

/-! ## C9 and C10 -/

/-- C9: the visitor phase never rewrites the tree — after a successful
compile the compiler's `node` field still holds exactly the output of
the normalization pass, which is therefore the only rewrite of
`Block.nodes`; and that rewrite replaces a nested non-yield `Block`
among its siblings by its own flattened contents, keeping the
(recursively normalized) surrounding siblings in their relative
order. -/
theorem visitor_no_mutation :
    (∀ (env : Env) (t : Node) (s' : CState),
      compileRun env t = .ok s' → s'.node = cleanUpAST t)
    ∧ (∀ (xs ys ms : List Node) (l : Int),
      cleanNodes (xs ++ Node.block false ms l :: ys) =
        cleanNodes xs ++ (cleanNodes ms ++ cleanNodes ys)) := by
  constructor
  · intro env t s' h
    simp only [compileRun] at h
    exact (visit_pres env _ _ none false _ s' h).2
  · intro xs ys ms l
    rw [cleanNodes_append]
    rfl

def envC9 : Env := { opts := defaultOptions, toConstant := fun _ => none }

/-- A tree with a redundant nested block wrapper. -/
def treeC9 : Node := Node.block false [Node.block false [Node.doctype (str "5") 1] 1] 1

/-- Witness for C9 at a concrete compile: the final state's tree is the
normalized input, and a concrete sibling list is flattened in order. -/
theorem visitor_no_mutation_witness :
    (CState.mk [str "doctype 5"] (-1) false
        (Node.block false [Node.doctype (str "5") 1] 1)).node = cleanUpAST treeC9
      ∧ cleanNodes
          ([Node.doctype (str "1") 1] ++
            Node.block false [Node.doctype (str "2") 1] 1 :: [Node.doctype (str "3") 1]) =
        cleanNodes [Node.doctype (str "1") 1] ++
          (cleanNodes [Node.doctype (str "2") 1] ++ cleanNodes [Node.doctype (str "3") 1]) :=
  ⟨visitor_no_mutation.1 envC9 treeC9
      (CState.mk [str "doctype 5"] (-1) false
        (Node.block false [Node.doctype (str "5") 1] 1)) (by rfl),
    visitor_no_mutation.2 [Node.doctype (str "1") 1] [Node.doctype (str "3") 1]
      [Node.doctype (str "2") 1] 1⟩

/-- C10: every successful call of `visit` — and of the handlers the
source lets manipulate the indent depth: `visitBlock`,
`visitPipelessTextBlock` and `visitCode` — returns with `this.indents`
restored to its entry value, for every node, parent, inline flag and
starting state. -/
theorem indents_restored :
    (∀ (env : Env) (fuel : Nat) (node : Node) (parent : Option Node) (inline : Bool)
        (s s' : CState), visit env fuel node parent inline s = .ok s' →
      s'.indents = s.indents)
    ∧ (∀ (env : Env) (fuel : Nat) (block : Node) (inline : Bool) (parent : Option Node)
        (s s' : CState), visitBlock env fuel block inline parent s = .ok s' →
      s'.indents = s.indents)
    ∧ (∀ (env : Env) (fuel : Nat) (blk : Node) (noEscape : Bool) (s s' : CState),
        visitPipelessTextBlock env fuel blk noEscape s = .ok s' →
      s'.indents = s.indents)
    ∧ (∀ (env : Env) (fuel : Nat) (self : Node) (val : List Char) (cbuffer escape : Bool)
        (blkOpt : Option Node) (inline : Bool) (parent : Option Node) (s s' : CState),
        visitCode env fuel self val cbuffer escape blkOpt inline parent s = .ok s' →
      s'.indents = s.indents) :=
  ⟨fun env fuel node parent inline s s' h => (visit_pres env fuel node parent inline s s' h).1,
    fun env fuel block inline parent s s' h =>
      (visitBlock_pres env fuel block inline parent s s' h).1,
    fun env fuel blk ne s s' h => (visitPipelessTextBlock_pres env fuel blk ne s s' h).1,
    fun env fuel self val cb esc blkOpt inline parent s s' h =>
      (visitCode_pres env fuel self val cb esc blkOpt inline parent s s' h).1⟩

def envC10 : Env := { opts := defaultOptions, toConstant := fun _ => none }

/-- Witness for C10 at a concrete visit call. -/
theorem indents_restored_witness :
    (CState.mk [str "doctype html"] 0 false (Node.block false [] 1)).indents =
      (CState.mk [] 0 false (Node.block false [] 1)).indents :=
  indents_restored.1 envC10 1 (Node.doctype (str "html") 1) none false
    (CState.mk [] 0 false (Node.block false [] 1))
    (CState.mk [str "doctype html"] 0 false (Node.block false [] 1)) (by rfl)

end JadeGen
